import Mathlib

/-!
# Polled I2C master driver of `01_Accelerometer/src/main.c`

A shallow embedding of the bus transaction engine (`I2C_Write`, `I2C_Read` and
the register-level helpers they call) over an abstract model of the I2C1
register block, together with theorems about the order of register accesses.

* The peripheral is a value `H : Hw σ`: a volatile load of a register returns a
  value and a new device state, a store yields a new device state.
* The driver threads a state `St σ` (device, caller buffer, interrupt mask and
  the trace of accesses performed so far).
* Every `while (...);` of the source is a `waitWhile` with a bound on the number
  of polls; `none` means the bound was reached before the wait exited.
-/

namespace DeadReckoning

/-! ## Registers, events, constants -/

/-- Registers of the I2C1 block that the transaction engine touches. -/
inductive Reg
  | CR1 | CR2 | SR1 | SR2 | DR
  deriving DecidableEq, Repr

/-- One observable access performed by the driver.  A read-modify-write
statement `R |= m` is recorded as `load R old` followed by `orEq R m`
(the store of `old | m`); `R &= ~m` as `load R old` followed by `andNotEq R m`. -/
inductive Ev
  | load (r : Reg) (v : Nat)
  | store (r : Reg) (v : Nat)
  | orEq (r : Reg) (m : Nat)
  | andNotEq (r : Reg) (m : Nat)
  | irqOff
  | irqOn
  | bufLoad (i v : Nat)
  | bufStore (i v : Nat)
  deriving DecidableEq, Repr

/-- Modelled from the spec: the CMSIS device header `stm32f103xb.h` is not among
the sources; peripheral-enable bit of control register 1. -/
def I2C_CR1_PE : Nat := 0x0001
/-- Modelled from the spec: the CMSIS device header is not among the sources;
start bit of control register 1. -/
def I2C_CR1_START : Nat := 0x0100
/-- Modelled from the spec: the CMSIS device header is not among the sources;
stop bit of control register 1. -/
def I2C_CR1_STOP : Nat := 0x0200
/-- Modelled from the spec: the CMSIS device header is not among the sources;
acknowledge-enable bit of control register 1. -/
def I2C_CR1_ACK : Nat := 0x0400
/-- Modelled from the spec: the CMSIS device header is not among the sources;
paired-byte (POS) bit of control register 1. -/
def I2C_CR1_POS : Nat := 0x0800
/-- Modelled from the spec: the CMSIS device header is not among the sources;
start-bit flag of status register 1. -/
def I2C_SR1_SB : Nat := 0x0001
/-- Modelled from the spec: the CMSIS device header is not among the sources;
address-matched flag of status register 1. -/
def I2C_SR1_ADDR : Nat := 0x0002
/-- Modelled from the spec: the CMSIS device header is not among the sources;
byte-transfer-finished flag of status register 1. -/
def I2C_SR1_BTF : Nat := 0x0004
/-- Modelled from the spec: the CMSIS device header is not among the sources;
receive-not-empty flag of status register 1. -/
def I2C_SR1_RXNE : Nat := 0x0040
/-- Modelled from the spec: the CMSIS device header is not among the sources;
transmitter flag of status register 2. -/
def I2C_SR2_TRA : Nat := 0x0004
/-- Modelled from the spec: the CMSIS device header is not among the sources;
the mask the driver applies to the slave address (bit 1 of OAR1, value 0x0002). -/
def I2C_OAR1_ADD1 : Nat := 0x0002
/-- The `I2C_IT_ERR` define of main.c. -/
def I2C_IT_ERR : Nat := 0x0100

/-- The C operator `~` on a 32-bit operand. -/
def bnot32 (m : Nat) : Nat := 4294967295 ^^^ m

/-! ## Hardware and driver state -/

/-- A model of the register block: `rd` is a volatile load (value returned, next
device state), `wr` a store. -/
structure Hw (σ : Type) where
  rd : σ → Reg → Nat × σ
  wr : σ → Reg → Nat → σ

/-- Everything a call can observe or change. -/
structure St (σ : Type) where
  dev : σ
  buf : List Nat
  primask : Bool
  trace : List Ev

variable {σ : Type}

/-- A volatile load `x = I2C1->R` of a 32-bit register. -/
def load (H : Hw σ) (r : Reg) (s : St σ) : Nat × St σ :=
  ((H.rd s.dev r).1 % 4294967296,
   { s with dev := (H.rd s.dev r).2,
            trace := s.trace ++ [Ev.load r ((H.rd s.dev r).1 % 4294967296)] })

/-- A store `I2C1->R = v`. -/
def store (H : Hw σ) (r : Reg) (v : Nat) (s : St σ) : St σ :=
  { s with dev := H.wr s.dev r v, trace := s.trace ++ [Ev.store r v] }

/-- The statement `I2C1->R |= m`. -/
def orEq (H : Hw σ) (r : Reg) (m : Nat) (s : St σ) : St σ :=
  { (load H r s).2 with
      dev := H.wr (load H r s).2.dev r ((load H r s).1 ||| m),
      trace := (load H r s).2.trace ++ [Ev.orEq r m] }

/-- The statement `I2C1->R &= ~m`. -/
def andNotEq (H : Hw σ) (r : Reg) (m : Nat) (s : St σ) : St σ :=
  { (load H r s).2 with
      dev := H.wr (load H r s).2.dev r ((load H r s).1 &&& bnot32 m),
      trace := (load H r s).2.trace ++ [Ev.andNotEq r m] }

/-- The intrinsic `__disable_irq()`. -/
def disable_irq (s : St σ) : St σ :=
  { s with primask := true, trace := s.trace ++ [Ev.irqOff] }

/-- The intrinsic `__enable_irq()`. -/
def enable_irq (s : St σ) : St σ :=
  { s with primask := false, trace := s.trace ++ [Ev.irqOn] }

/-- The expression `buf[i]` read through the caller's pointer. -/
def bufLoad (i : Nat) (s : St σ) : Nat × St σ :=
  (s.buf.getD i 0, { s with trace := s.trace ++ [Ev.bufLoad i (s.buf.getD i 0)] })

/-- The statement `buf[i] = v`. -/
def bufStore (i v : Nat) (s : St σ) : St σ :=
  { s with buf := s.buf.set i v, trace := s.trace ++ [Ev.bufStore i v] }

/-- The loop `while (cont (I2C1->R));` with at most `fuel` polls. -/
def waitWhile (H : Hw σ) (r : Reg) (cont : Nat → Bool) : Nat → St σ → Option (St σ)
  | 0, _ => none
  | fuel + 1, s =>
    if cont (load H r s).1 then waitWhile H r cont fuel (load H r s).2
    else some (load H r s).2

/-! ## Register-level helpers of main.c -/

/-- Source `i2c_start`: set the START bit of CR1. -/
def i2c_start (H : Hw σ) (_num_bytes : Nat) (s : St σ) : St σ :=
  orEq H Reg.CR1 I2C_CR1_START s

/-- Source `i2c_send_7bit_address`: load the address byte into DR. -/
def i2c_send_7bit_address (H : Hw σ) (slave_address : Nat) (s : St σ) : St σ :=
  store H Reg.DR slave_address s

/-- Source `i2c_stop`: set the STOP bit of CR1, then spin while CR1 reads with
STOP set. -/
def i2c_stop (H : Hw σ) (fuel : Nat) (s : St σ) : Option (St σ) :=
  waitWhile H Reg.CR1 (fun v => v &&& I2C_CR1_STOP != 0) fuel
    (orEq H Reg.CR1 I2C_CR1_STOP s)

/-- Source `i2c_receive_data`: read DR, truncated to a byte. -/
def i2c_receive_data (H : Hw σ) (s : St σ) : Nat × St σ :=
  ((load H Reg.DR s).1 % 256, (load H Reg.DR s).2)

/-- Source `i2c_send_data`: write a byte to DR. -/
def i2c_send_data (H : Hw σ) (data : Nat) (s : St σ) : St σ :=
  store H Reg.DR data s

/-! ## The transaction engine -/

/-- The loop `while (--nbyte) { wait BTF; i2c_send_data(*buf++); }` of
`I2C_Write`.  The first argument is the value of `nbyte` after the pre-decrement
the loop test has just made, `i` is the offset of `buf` from the caller's
pointer.  A non-zero value runs the body and then decrements again. -/
def I2C_Write_loop (H : Hw σ) (fuel : Nat) : Nat → Nat → St σ → Option (St σ)
  | 0, _, s => some s
  | n + 1, i, s => do
    let s ← waitWhile H Reg.SR1 (fun v => v &&& I2C_SR1_BTF != I2C_SR1_BTF) fuel s
    let s := i2c_send_data H (bufLoad i s).1 (bufLoad i s).2
    I2C_Write_loop H fuel n (i + 1) s

/-- Source `I2C_Write(buf, nbyte, SlaveAddress)`; the buffer is `s.buf`.  Inside
`if (nbyte)` the count is not zero, so the first pre-decrement of the loop does
not wrap. -/
def I2C_Write (H : Hw σ) (fuel : Nat) (nbyte : Nat) (SlaveAddress : Nat) (s : St σ) :
    Option (St σ) :=
  if nbyte != 0 then do
    let s := i2c_start H 1 s
    let s ← waitWhile H Reg.SR1 (fun v => v &&& I2C_SR1_SB != 0) fuel s
    let SlaveAddress := (SlaveAddress &&& bnot32 I2C_OAR1_ADD1) % 256
    let s := i2c_send_7bit_address H SlaveAddress s
    let s ← waitWhile H Reg.SR1 (fun v => v &&& I2C_SR1_ADDR != I2C_SR1_ADDR) fuel s
    let s := (load H Reg.SR2 s).2
    let s := i2c_send_data H (bufLoad 0 s).1 (bufLoad 0 s).2
    let s ← I2C_Write_loop H fuel (nbyte - 1) 1 s
    let s ← waitWhile H Reg.SR1 (fun v => v &&& I2C_SR1_BTF != I2C_SR1_BTF) fuel s
    let s ← i2c_stop H fuel s
    waitWhile H Reg.CR1 (fun v => v &&& bnot32 I2C_CR1_STOP == bnot32 I2C_CR1_STOP) fuel s
  else some s

/-- The arm `if (nbyte == 3) { ... nbyte = 0; }` of the loop of `I2C_Read`
(lines 398-420), run with `buf` at offset `i`: wait on BTF, clear ACK, then with
interrupts masked read DR, stop, read DR; then wait on RXNE and read DR. -/
def I2C_Read_last3 (H : Hw σ) (fuel : Nat) (i : Nat) (s : St σ) : Option (St σ) := do
  let s ← waitWhile H Reg.SR1 (fun v => v &&& I2C_SR1_BTF != 0) fuel s
  let s := andNotEq H Reg.CR1 I2C_CR1_ACK s
  let s := disable_irq s
  let s := bufStore i (i2c_receive_data H s).1 (i2c_receive_data H s).2
  let s ← i2c_stop H fuel s
  let s := bufStore (i + 1) (i2c_receive_data H s).1 (i2c_receive_data H s).2
  let s := enable_irq s
  let s ← waitWhile H Reg.SR1 (fun v => v &&& I2C_SR1_RXNE != 0) fuel s
  some (bufStore (i + 2) (i2c_receive_data H s).1 (i2c_receive_data H s).2)

/-- The loop `while (nbyte) { if (nbyte-- != 3) {..} if (nbyte == 3) {..; nbyte = 0;} }`
of the `nbyte >= 3` branch of `I2C_Read`; `i` is the offset of `buf` from the
caller's pointer.  The first test sees the value before the post-decrement, the
second the value after it. -/
def I2C_Read_loop (H : Hw σ) (fuel : Nat) : Nat → Nat → St σ → Option (St σ)
  | 0, _, s => some s
  | n + 1, i, s => do
    let (i, s) ←
      if n + 1 != 3 then do
        let s ← waitWhile H Reg.SR1 (fun v => v &&& I2C_SR1_BTF != 0) fuel s
        let s := bufStore i (i2c_receive_data H s).1 (i2c_receive_data H s).2
        pure (i + 1, s)
      else pure (i, s)
    if n == 3 then
      -- the arm ends with nbyte = 0, so the loop condition fails next
      I2C_Read_last3 H fuel i s
    else I2C_Read_loop H fuel n i s

/-- Source `I2C_Read(buf, nbyte, SlaveAddress)`; the buffer is `s.buf`. -/
def I2C_Read (H : Hw σ) (fuel : Nat) (nbyte : Nat) (SlaveAddress : Nat) (s : St σ) :
    Option (St σ) :=
  if nbyte == 0 then some s else do
    let s := orEq H Reg.CR2 I2C_IT_ERR s
    let s := orEq H Reg.CR1 I2C_CR1_ACK s
    let s ← waitWhile H Reg.SR1 (fun v => v &&& I2C_SR1_ADDR != 0) fuel s
    let s ← waitWhile H Reg.SR2 (fun v => v &&& I2C_SR2_TRA != 0) fuel s
    if nbyte == 1 then do
      let s := i2c_start H 1 s
      let s ← waitWhile H Reg.SR1 (fun v => v &&& I2C_SR1_SB != I2C_SR1_SB) fuel s
      let SlaveAddress := (SlaveAddress ||| I2C_OAR1_ADD1) % 256
      let s := i2c_send_7bit_address H SlaveAddress s
      let s ← waitWhile H Reg.SR1 (fun v => v &&& I2C_SR1_ADDR != I2C_SR1_ADDR) fuel s
      let s := andNotEq H Reg.CR1 I2C_CR1_ACK s
      let s := disable_irq s
      let s := (load H Reg.SR1 s).2
      let s ← i2c_stop H fuel s
      let s := orEq H Reg.CR1 I2C_CR1_STOP s
      let s := enable_irq s
      let s ← waitWhile H Reg.SR1 (fun v => v &&& I2C_SR1_RXNE != 0) fuel s
      let s := bufStore 0 (i2c_receive_data H s).1 (i2c_receive_data H s).2
      let s ← waitWhile H Reg.CR1
        (fun v => v &&& bnot32 I2C_CR1_STOP == bnot32 I2C_CR1_STOP) fuel s
      some (orEq H Reg.CR1 I2C_CR1_ACK s)
    else if nbyte == 2 then do
      let s := orEq H Reg.CR1 I2C_CR1_POS s
      let s := orEq H Reg.CR1 I2C_CR1_START s
      let s ← waitWhile H Reg.SR1 (fun v => v &&& I2C_SR1_SB != I2C_SR1_SB) fuel s
      let SlaveAddress := (SlaveAddress ||| I2C_OAR1_ADD1) % 256
      let s := i2c_send_7bit_address H SlaveAddress s
      let s ← waitWhile H Reg.SR1 (fun v => v &&& I2C_SR1_ADDR != I2C_SR1_ADDR) fuel s
      let s := disable_irq s
      let s := (load H Reg.SR2 s).2
      let s := andNotEq H Reg.CR1 I2C_CR1_ACK s
      let s := enable_irq s
      let s ← waitWhile H Reg.SR1 (fun v => v &&& I2C_SR1_BTF != 0) fuel s
      let s := disable_irq s
      let s ← i2c_stop H fuel s
      let s := bufStore 0 (i2c_receive_data H s).1 (i2c_receive_data H s).2
      let s := enable_irq s
      let s := bufStore 1 (i2c_receive_data H s).1 (i2c_receive_data H s).2
      let s ← waitWhile H Reg.CR1 (fun v => v &&& bnot32 I2C_CR1_STOP != 0) fuel s
      let s := andNotEq H Reg.CR1 I2C_CR1_POS s
      some (orEq H Reg.CR1 I2C_CR1_ACK s)
    else do
      let s ← i2c_stop H fuel s
      let s ← waitWhile H Reg.SR1 (fun v => v &&& I2C_SR1_SB != I2C_SR1_SB) fuel s
      let SlaveAddress := (SlaveAddress ||| I2C_OAR1_ADD1) % 256
      let s := i2c_send_7bit_address H SlaveAddress s
      let s ← waitWhile H Reg.SR1 (fun v => v &&& I2C_SR1_ADDR != I2C_SR1_ADDR) fuel s
      let s := (load H Reg.SR2 s).2
      let s ← I2C_Read_loop H fuel nbyte 0 s
      let s ← waitWhile H Reg.CR1 (fun v => v &&& I2C_CR1_STOP == I2C_CR1_STOP) fuel s
      some (orEq H Reg.CR1 I2C_CR1_ACK s)

/-! ## A test double of the register block -/

/-- Device state of the test double: the latched control register, a phase that
flips at every status read, and the next byte the data register will deliver. -/
structure Dev where
  cr1 : Nat
  phase : Bool
  next : Nat
  deriving DecidableEq, Repr

/-- A register-block double.  Status registers read all-zero and all-one
alternately, so every status wait is satisfied within two polls; CR1 keeps what
software wrote except that START and STOP read back clear once they have been
read set; DR delivers consecutive bytes. -/
def dbl : Hw Dev where
  rd d r :=
    match r with
    | Reg.CR1 => (d.cr1, { d with cr1 := d.cr1 &&& bnot32 (I2C_CR1_START ||| I2C_CR1_STOP) })
    | Reg.CR2 => (0, d)
    | Reg.SR1 => (if d.phase then 4294967295 else 0, { d with phase := !d.phase })
    | Reg.SR2 => (if d.phase then 4294967295 else 0, { d with phase := !d.phase })
    | Reg.DR => (d.next, { d with next := d.next + 1 })
  wr d r v :=
    match r with
    | Reg.CR1 => { d with cr1 := v }
    | _ => d

/-- Initial state of a call on the double: CR1 as left by `I2C_Low_Level_Init`
(PE and ACK set), interrupts enabled, empty trace. -/
def init (buf : List Nat) (phase : Bool) : St Dev :=
  { dev := { cr1 := I2C_CR1_PE ||| I2C_CR1_ACK, phase := phase, next := 0xA0 },
    buf := buf, primask := false, trace := [] }

/-! ## Vocabulary for traces -/

/-- The accesses of one polled wait on `r` that saw the values `vs`. -/
def pollEv (r : Reg) (vs : List Nat) : List Ev := vs.map (Ev.load r)

/-- The values `vs` seen by a wait make it run to its exit: the wait continues on
every value but the last and exits on the last. -/
def completes (cont : Nat → Bool) : List Nat → Bool
  | [] => false
  | [v] => !cont v
  | v :: w :: vs => cont v && completes cont (w :: vs)

/-- The event modifies a peripheral register. -/
def Ev.isWrite : Ev → Bool
  | Ev.store _ _ => true
  | Ev.orEq _ _ => true
  | Ev.andNotEq _ _ => true
  | _ => false

/-- The number of polls after which the wait `while (cont R);` started in device
state `d` has exited, if it does within `n` polls. -/
def pollExits (H : Hw σ) (r : Reg) (cont : Nat → Bool) : Nat → σ → Bool
  | 0, _ => false
  | n + 1, d =>
    if cont ((H.rd d r).1 % 4294967296) then pollExits H r cont n (H.rd d r).2 else true

/-- The wait `while (cont R);` exits eventually, whatever state the device is in
when it starts. -/
def Exits (H : Hw σ) (r : Reg) (cont : Nat → Bool) : Prop :=
  ∀ d, ∃ n, pollExits H r cont n d = true

/-- The accesses of the `while (--nbyte)` loop of `I2C_Write` that starts at
buffer offset `i`, one wait (with the values it saw) per byte sent. -/
def writeLoopEv (buf : List Nat) : Nat → List (List Nat) → List Ev
  | _, [] => []
  | i, p :: ps =>
    pollEv Reg.SR1 p ++ [Ev.bufLoad i (buf.getD i 0), Ev.store Reg.DR (buf.getD i 0)]
      ++ writeLoopEv buf (i + 1) ps

/-- Every polled wait of `I2C_Write` exits eventually. -/
def WriteWaitsExit (H : Hw σ) : Prop :=
  Exits H Reg.SR1 (fun v => v &&& I2C_SR1_SB != 0) ∧
  Exits H Reg.SR1 (fun v => v &&& I2C_SR1_ADDR != I2C_SR1_ADDR) ∧
  Exits H Reg.SR1 (fun v => v &&& I2C_SR1_BTF != I2C_SR1_BTF) ∧
  Exits H Reg.CR1 (fun v => v &&& I2C_CR1_STOP != 0) ∧
  Exits H Reg.CR1 (fun v => v &&& bnot32 I2C_CR1_STOP == bnot32 I2C_CR1_STOP)

/-- The accesses of the single-byte iterations of the loop of `I2C_Read` starting
at buffer offset `i`: per iteration the values seen by its wait on SR1 and the
value then read from DR. -/
def singleReadsEv : Nat → List (List Nat × Nat) → List Ev
  | _, [] => []
  | i, (p, v) :: rest =>
    pollEv Reg.SR1 p ++ [Ev.load Reg.DR v, Ev.bufStore i (v % 256)] ++ singleReadsEv (i + 1) rest

/-- The accesses of the three-bytes-left arm of the loop of `I2C_Read` at buffer
offset `i`. -/
def lastThreeEv (i : Nat) (p1 : List Nat) (c1 v1 c2 : Nat) (p2 : List Nat) (v2 : Nat)
    (p3 : List Nat) (v3 : Nat) : List Ev :=
  pollEv Reg.SR1 p1 ++
    [Ev.load Reg.CR1 c1, Ev.andNotEq Reg.CR1 I2C_CR1_ACK, Ev.irqOff,
      Ev.load Reg.DR v1, Ev.bufStore i (v1 % 256),
      Ev.load Reg.CR1 c2, Ev.orEq Reg.CR1 I2C_CR1_STOP] ++
    pollEv Reg.CR1 p2 ++
    [Ev.load Reg.DR v2, Ev.bufStore (i + 1) (v2 % 256), Ev.irqOn] ++
    pollEv Reg.SR1 p3 ++
    [Ev.load Reg.DR v3, Ev.bufStore (i + 2) (v3 % 256)]

/-- The buffer after the bytes `vs` were stored at consecutive offsets from `i`. -/
def storeAll : List Nat → Nat → List Nat → List Nat
  | buf, _, [] => buf
  | buf, i, v :: vs => storeAll (buf.set i v) (i + 1) vs

/-- The event reads the data register, touches the caller's buffer, or clears
the ACK bit of CR1. -/
def Ev.isData : Ev → Bool
  | Ev.load Reg.DR _ => true
  | Ev.bufLoad _ _ => true
  | Ev.bufStore _ _ => true
  | Ev.andNotEq Reg.CR1 m => m == I2C_CR1_ACK
  | _ => false

/-- Every polled wait of the `nbyte >= 3` branch of `I2C_Read` exits eventually. -/
def ReadWaitsExit (H : Hw σ) : Prop :=
  Exits H Reg.SR1 (fun v => v &&& I2C_SR1_ADDR != 0) ∧
  Exits H Reg.SR2 (fun v => v &&& I2C_SR2_TRA != 0) ∧
  Exits H Reg.CR1 (fun v => v &&& I2C_CR1_STOP != 0) ∧
  Exits H Reg.SR1 (fun v => v &&& I2C_SR1_SB != I2C_SR1_SB) ∧
  Exits H Reg.SR1 (fun v => v &&& I2C_SR1_ADDR != I2C_SR1_ADDR) ∧
  Exits H Reg.SR1 (fun v => v &&& I2C_SR1_BTF != 0) ∧
  Exits H Reg.SR1 (fun v => v &&& I2C_SR1_RXNE != 0) ∧
  Exits H Reg.CR1 (fun v => v &&& I2C_CR1_STOP == I2C_CR1_STOP)

/-- The event sets or clears POS, sets STOP, writes or reads the data register,
or stores to the caller's buffer. -/
def Ev.isPosStopData : Ev → Bool
  | Ev.orEq Reg.CR1 m => m == I2C_CR1_POS || m == I2C_CR1_STOP
  | Ev.andNotEq Reg.CR1 m => m == I2C_CR1_POS
  | Ev.store Reg.DR _ => true
  | Ev.load Reg.DR _ => true
  | Ev.bufStore _ _ => true
  | _ => false

/-- The hardware keeps the POS bit of CR1 as software last wrote it: `Inv` holds
of the device states in which POS is latched set. -/
structure KeepsPOS (H : Hw σ) (Inv : σ → Prop) : Prop where
  rd_keeps : ∀ d r, Inv d → Inv (H.rd d r).2
  rd_sees : ∀ d, Inv d → (H.rd d Reg.CR1).1 % 4294967296 &&& I2C_CR1_POS = I2C_CR1_POS
  wr_cr1 : ∀ d v, v &&& I2C_CR1_POS = I2C_CR1_POS → Inv (H.wr d Reg.CR1 v)
  wr_dr : ∀ d v, Inv d → Inv (H.wr d Reg.DR v)

/-- More fuel does not change the outcome of a run that returned. -/
def Mono (P : Nat → St σ → Option (St σ)) : Prop :=
  ∀ n m s s', n ≤ m → P n s = some s' → P m s = some s'

/-- From every state the run returns once the fuel is large enough. -/
def Halts (P : Nat → St σ → Option (St σ)) : Prop :=
  ∀ s, ∃ n s', P n s = some s'

/-- What the logged accesses act on: the value delivered by the last register
load (the operand of a following `|=` or `&= ~`), the device, the caller's buffer
and the interrupt mask. -/
structure Mach (σ : Type) where
  last : Nat
  dev : σ
  buf : List Nat
  primask : Bool

/-- The machine a driver state stands for, given the last value loaded. -/
def St.mach (s : St σ) (l : Nat) : Mach σ :=
  { last := l, dev := s.dev, buf := s.buf, primask := s.primask }

/-- The effect of one logged access on the machine: a load reads the register
(and must deliver the logged value), a store writes the logged value, `orEq r k`
writes the last loaded value with the bits `k` set, `andNotEq r k` writes it with
the bits `k` cleared; the interrupt events set the mask, the buffer events read
or write the buffer. -/
def Ev.step (H : Hw σ) : Ev → Mach σ → Option (Mach σ)
  | Ev.load r v, m =>
    if (H.rd m.dev r).1 % 4294967296 = v then
      some { m with last := v, dev := (H.rd m.dev r).2 }
    else none
  | Ev.store r v, m => some { m with dev := H.wr m.dev r v }
  | Ev.orEq r k, m => some { m with dev := H.wr m.dev r (m.last ||| k) }
  | Ev.andNotEq r k, m => some { m with dev := H.wr m.dev r (m.last &&& bnot32 k) }
  | Ev.irqOff, m => some { m with primask := true }
  | Ev.irqOn, m => some { m with primask := false }
  | Ev.bufLoad i v, m => if m.buf.getD i 0 = v then some m else none
  | Ev.bufStore i v, m => some { m with buf := m.buf.set i v }

/-- The machine after the accesses `t`, performed in order on the hardware. -/
def replay (H : Hw σ) : List Ev → Mach σ → Option (Mach σ)
  | [], m => some m
  | e :: t, m => (e.step H m).bind (replay H t)

/-- The run from `s` to `s'` did to the hardware, the buffer and the interrupt
mask exactly what the accesses it appended to the trace say, in that order. -/
def Logged (H : Hw σ) (s s' : St σ) : Prop :=
  ∃ t, s'.trace = s.trace ++ t ∧ ∀ l, ∃ l', replay H t (s.mach l) = some (s'.mach l')

/-- The `nbyte == 2` path of `I2C_Read` from entry up to, and not including, the
last wait of the branch (lines 296-366 of main.c). -/
def I2C_Read_two_body (H : Hw σ) (fuel : Nat) (SlaveAddress : Nat) (s : St σ) :
    Option (St σ) := do
  let s := orEq H Reg.CR2 I2C_IT_ERR s
  let s := orEq H Reg.CR1 I2C_CR1_ACK s
  let s ← waitWhile H Reg.SR1 (fun v => v &&& I2C_SR1_ADDR != 0) fuel s
  let s ← waitWhile H Reg.SR2 (fun v => v &&& I2C_SR2_TRA != 0) fuel s
  let s := orEq H Reg.CR1 I2C_CR1_POS s
  let s := orEq H Reg.CR1 I2C_CR1_START s
  let s ← waitWhile H Reg.SR1 (fun v => v &&& I2C_SR1_SB != I2C_SR1_SB) fuel s
  let SlaveAddress := (SlaveAddress ||| I2C_OAR1_ADD1) % 256
  let s := i2c_send_7bit_address H SlaveAddress s
  let s ← waitWhile H Reg.SR1 (fun v => v &&& I2C_SR1_ADDR != I2C_SR1_ADDR) fuel s
  let s := disable_irq s
  let s := (load H Reg.SR2 s).2
  let s := andNotEq H Reg.CR1 I2C_CR1_ACK s
  let s := enable_irq s
  let s ← waitWhile H Reg.SR1 (fun v => v &&& I2C_SR1_BTF != 0) fuel s
  let s := disable_irq s
  let s ← i2c_stop H fuel s
  let s := bufStore 0 (i2c_receive_data H s).1 (i2c_receive_data H s).2
  let s := enable_irq s
  some (bufStore 1 (i2c_receive_data H s).1 (i2c_receive_data H s).2)

/-- Every polled wait of the `nbyte == 2` branch of `I2C_Read` before its last
one exits eventually. -/
def ReadTwoWaitsExit (H : Hw σ) : Prop :=
  Exits H Reg.SR1 (fun v => v &&& I2C_SR1_ADDR != 0) ∧
  Exits H Reg.SR2 (fun v => v &&& I2C_SR2_TRA != 0) ∧
  Exits H Reg.SR1 (fun v => v &&& I2C_SR1_SB != I2C_SR1_SB) ∧
  Exits H Reg.SR1 (fun v => v &&& I2C_SR1_ADDR != I2C_SR1_ADDR) ∧
  Exits H Reg.SR1 (fun v => v &&& I2C_SR1_BTF != 0) ∧
  Exits H Reg.CR1 (fun v => v &&& I2C_CR1_STOP != 0)

/-! ## Basic facts about the primitives -/

@[simp] theorem load_trace (H : Hw σ) (r : Reg) (s : St σ) :
    (load H r s).2.trace = s.trace ++ [Ev.load r (load H r s).1] := rfl

@[simp] theorem load_buf (H : Hw σ) (r : Reg) (s : St σ) : (load H r s).2.buf = s.buf := rfl

@[simp] theorem load_primask (H : Hw σ) (r : Reg) (s : St σ) :
    (load H r s).2.primask = s.primask := rfl

@[simp] theorem store_trace (H : Hw σ) (r : Reg) (v : Nat) (s : St σ) :
    (store H r v s).trace = s.trace ++ [Ev.store r v] := rfl

@[simp] theorem store_buf (H : Hw σ) (r : Reg) (v : Nat) (s : St σ) :
    (store H r v s).buf = s.buf := rfl

@[simp] theorem orEq_trace (H : Hw σ) (r : Reg) (m : Nat) (s : St σ) :
    (orEq H r m s).trace = s.trace ++ [Ev.load r (load H r s).1, Ev.orEq r m] := by
  simp [orEq]

@[simp] theorem orEq_buf (H : Hw σ) (r : Reg) (m : Nat) (s : St σ) :
    (orEq H r m s).buf = s.buf := rfl

@[simp] theorem andNotEq_trace (H : Hw σ) (r : Reg) (m : Nat) (s : St σ) :
    (andNotEq H r m s).trace = s.trace ++ [Ev.load r (load H r s).1, Ev.andNotEq r m] := by
  simp [andNotEq]

@[simp] theorem andNotEq_buf (H : Hw σ) (r : Reg) (m : Nat) (s : St σ) :
    (andNotEq H r m s).buf = s.buf := rfl

@[simp] theorem disable_irq_trace (s : St σ) :
    (disable_irq s).trace = s.trace ++ [Ev.irqOff] := rfl

@[simp] theorem disable_irq_buf (s : St σ) : (disable_irq s).buf = s.buf := rfl

@[simp] theorem enable_irq_trace (s : St σ) :
    (enable_irq s).trace = s.trace ++ [Ev.irqOn] := rfl

@[simp] theorem enable_irq_buf (s : St σ) : (enable_irq s).buf = s.buf := rfl

@[simp] theorem bufLoad_trace (i : Nat) (s : St σ) :
    (bufLoad i s).2.trace = s.trace ++ [Ev.bufLoad i (s.buf.getD i 0)] := rfl

@[simp] theorem bufLoad_val (i : Nat) (s : St σ) : (bufLoad i s).1 = s.buf.getD i 0 := rfl

@[simp] theorem bufLoad_buf (i : Nat) (s : St σ) : (bufLoad i s).2.buf = s.buf := rfl

@[simp] theorem bufStore_trace (i v : Nat) (s : St σ) :
    (bufStore i v s).trace = s.trace ++ [Ev.bufStore i v] := rfl

@[simp] theorem bufStore_buf (i v : Nat) (s : St σ) :
    (bufStore i v s).buf = s.buf.set i v := rfl

@[simp] theorem i2c_receive_data_trace (H : Hw σ) (s : St σ) :
    (i2c_receive_data H s).2.trace = s.trace ++ [Ev.load Reg.DR (load H Reg.DR s).1] := rfl

@[simp] theorem i2c_receive_data_val (H : Hw σ) (s : St σ) :
    (i2c_receive_data H s).1 = (load H Reg.DR s).1 % 256 := rfl

@[simp] theorem i2c_receive_data_buf (H : Hw σ) (s : St σ) :
    (i2c_receive_data H s).2.buf = s.buf := rfl

/-- A wait that returns leaves buffer and interrupt mask alone and appends to the
trace the loads of one complete wait. -/
theorem waitWhile_spec (H : Hw σ) (r : Reg) (cont : Nat → Bool) :
    ∀ (fuel : Nat) (s s' : St σ), waitWhile H r cont fuel s = some s' →
      s'.buf = s.buf ∧ s'.primask = s.primask ∧
      ∃ vs, completes cont vs = true ∧ s'.trace = s.trace ++ pollEv r vs
  | 0, s, s', h => by simp [waitWhile] at h
  | fuel + 1, s, s', h => by
    unfold waitWhile at h
    by_cases hc : cont (load H r s).1 = true
    · rw [if_pos hc] at h
      obtain ⟨hb, hp, vs, hvs, ht⟩ := waitWhile_spec H r cont fuel _ _ h
      refine ⟨by simpa using hb, by simpa using hp, (load H r s).1 :: vs, ?_, ?_⟩
      · cases vs with
        | nil => simp [completes] at hvs
        | cons w ws => simp [completes, hc, hvs]
      · simp [ht, pollEv]
    · rw [if_neg hc] at h
      cases h
      refine ⟨rfl, rfl, [(load H r s).1], ?_, ?_⟩
      · simpa [completes] using hc
      · simp [pollEv]

/-- The last value seen by a complete wait is one on which the wait exits. -/
theorem completes_getLast {cont : Nat → Bool} :
    ∀ {vs : List Nat}, completes cont vs = true →
      ∃ ws v, vs = ws ++ [v] ∧ cont v = false ∧ ∀ x ∈ ws, cont x = true
  | [], h => by simp [completes] at h
  | [v], h => ⟨[], v, rfl, by simpa [completes] using h, by simp⟩
  | x :: y :: vs, h => by
    simp only [completes, Bool.and_eq_true] at h
    obtain ⟨ws, v, he, hv, hall⟩ := completes_getLast h.2
    refine ⟨x :: ws, v, by simp [he], hv, ?_⟩
    intro z hz
    rcases List.mem_cons.1 hz with rfl | hz
    · exact h.1
    · exact hall z hz

/-! ## Fuel: monotonicity and termination -/

theorem waitWhile_mono (H : Hw σ) (r : Reg) (cont : Nat → Bool) :
    Mono (fun n s => waitWhile H r cont n s) := by
  intro n
  induction n with
  | zero => intro m s s' _ h; simp [waitWhile] at h
  | succ n ih =>
    intro m s s' hnm h
    obtain ⟨m, rfl⟩ : ∃ k, m = k + 1 := ⟨m - 1, by omega⟩
    simp only [waitWhile] at h ⊢
    by_cases hc : cont (load H r s).1 = true
    · rw [if_pos hc] at h ⊢
      exact ih m _ _ (by omega) h
    · rw [if_neg hc] at h ⊢
      exact h

theorem waitWhile_of_pollExits (H : Hw σ) (r : Reg) (cont : Nat → Bool) :
    ∀ (n : Nat) (s : St σ), pollExits H r cont n s.dev = true →
      ∃ s', waitWhile H r cont n s = some s'
  | 0, s, h => by simp [pollExits] at h
  | n + 1, s, h => by
    simp only [pollExits] at h
    simp only [waitWhile]
    by_cases hc : cont (load H r s).1 = true
    · rw [if_pos hc]
      have hc' : cont ((H.rd s.dev r).1 % 4294967296) = true := hc
      rw [if_pos hc'] at h
      exact waitWhile_of_pollExits H r cont n (load H r s).2 h
    · rw [if_neg hc]
      exact ⟨_, rfl⟩

theorem waitWhile_halts (H : Hw σ) (r : Reg) (cont : Nat → Bool) (hx : Exits H r cont) :
    Halts (fun n s => waitWhile H r cont n s) := by
  intro s
  obtain ⟨n, hn⟩ := hx s.dev
  obtain ⟨s', hs'⟩ := waitWhile_of_pollExits H r cont n s hn
  exact ⟨n, s', hs'⟩

theorem pure_mono (f : St σ → St σ) : Mono (fun _ s => some (f s)) := by
  intro n m s s' _ h; exact h

theorem pure_halts (f : St σ → St σ) : Halts (fun _ s => some (f s)) := by
  intro s; exact ⟨0, f s, rfl⟩

theorem seq_mono {P Q : Nat → St σ → Option (St σ)} (hP : Mono P) (hQ : Mono Q) :
    Mono (fun n s => (P n s).bind (Q n)) := by
  intro n m s s' hnm h
  simp only [Option.bind_eq_some] at h ⊢
  obtain ⟨s1, h1, h2⟩ := h
  exact ⟨s1, hP n m s s1 hnm h1, hQ n m s1 s' hnm h2⟩

theorem seq_halts {P Q : Nat → St σ → Option (St σ)} (hP : Mono P) (hQ : Mono Q)
    (tP : Halts P) (tQ : Halts Q) : Halts (fun n s => (P n s).bind (Q n)) := by
  intro s
  obtain ⟨n1, s1, h1⟩ := tP s
  obtain ⟨n2, s2, h2⟩ := tQ s1
  refine ⟨max n1 n2, s2, ?_⟩
  simp only [Option.bind_eq_some]
  exact ⟨s1, hP n1 _ s s1 (le_max_left _ _) h1, hQ n2 _ s1 s2 (le_max_right _ _) h2⟩

theorem i2c_stop_mono (H : Hw σ) : Mono (fun n s => i2c_stop H n s) := by
  intro n m s s' hnm h
  exact waitWhile_mono H _ _ n m _ s' hnm h

theorem i2c_stop_halts (H : Hw σ)
    (hx : Exits H Reg.CR1 (fun v => v &&& I2C_CR1_STOP != 0)) :
    Halts (fun n s => i2c_stop H n s) := by
  intro s
  exact waitWhile_halts H _ _ hx _

theorem pre_mono {P : Nat → St σ → Option (St σ)} (f : St σ → St σ) (hP : Mono P) :
    Mono (fun n s => P n (f s)) := by
  intro n m s s' hnm h; exact hP n m (f s) s' hnm h

theorem pre_halts {P : Nat → St σ → Option (St σ)} (f : St σ → St σ) (tP : Halts P) :
    Halts (fun n s => P n (f s)) := by
  intro s; exact tP (f s)

theorem step_mono {P Q : Nat → St σ → Option (St σ)} (f : St σ → St σ)
    (hP : Mono P) (hQ : Mono Q) : Mono (fun n s => (P n (f s)).bind (Q n)) :=
  pre_mono f (seq_mono hP hQ)

theorem step_halts {P Q : Nat → St σ → Option (St σ)} (f : St σ → St σ)
    (hP : Mono P) (hQ : Mono Q) (tP : Halts P) (tQ : Halts Q) :
    Halts (fun n s => (P n (f s)).bind (Q n)) :=
  pre_halts f (seq_halts hP hQ tP tQ)

/-! ## The trace is a faithful log of what was done -/

theorem replay_append (H : Hw σ) :
    ∀ (a b : List Ev) (m : Mach σ), replay H (a ++ b) m = (replay H a m).bind (replay H b)
  | [], b, m => rfl
  | e :: a, b, m => by
    simp only [List.cons_append, replay]
    cases e.step H m with
    | none => rfl
    | some m1 => exact replay_append H a b m1

theorem Logged.refl (H : Hw σ) (s : St σ) : Logged H s s :=
  ⟨[], by simp, fun l => ⟨l, rfl⟩⟩

theorem Logged.trans {H : Hw σ} {s1 s2 s3 : St σ} (h1 : Logged H s1 s2)
    (h2 : Logged H s2 s3) : Logged H s1 s3 := by
  obtain ⟨t1, e1, r1⟩ := h1
  obtain ⟨t2, e2, r2⟩ := h2
  refine ⟨t1 ++ t2, by rw [e2, e1, List.append_assoc], fun l => ?_⟩
  obtain ⟨l1, hl1⟩ := r1 l
  obtain ⟨l2, hl2⟩ := r2 l1
  exact ⟨l2, by rw [replay_append, hl1]; exact hl2⟩

/-- The accesses a logged run appended are determined by its two traces. -/
theorem Logged.replay_of_trace {H : Hw σ} {s s' : St σ} (h : Logged H s s') {t : List Ev}
    (ht : s'.trace = s.trace ++ t) :
    ∀ l, ∃ l', replay H t (s.mach l) = some (s'.mach l') := by
  obtain ⟨t', e, r⟩ := h
  have : t = t' := List.append_cancel_left (ht.symm.trans e)
  subst this
  exact r

theorem logged_load (H : Hw σ) (r : Reg) (s : St σ) : Logged H s (load H r s).2 :=
  ⟨[Ev.load r (load H r s).1], rfl, fun l => ⟨(load H r s).1, by
    simp [replay, Ev.step, load, St.mach]⟩⟩

theorem logged_store (H : Hw σ) (r : Reg) (v : Nat) (s : St σ) : Logged H s (store H r v s) :=
  ⟨[Ev.store r v], rfl, fun l => ⟨l, by simp [replay, Ev.step, store, St.mach]⟩⟩

theorem logged_orEq (H : Hw σ) (r : Reg) (k : Nat) (s : St σ) : Logged H s (orEq H r k s) :=
  ⟨[Ev.load r (load H r s).1, Ev.orEq r k], orEq_trace H r k s, fun l => ⟨(load H r s).1, by
    simp [replay, Ev.step, orEq, load, St.mach]⟩⟩

theorem logged_andNotEq (H : Hw σ) (r : Reg) (k : Nat) (s : St σ) :
    Logged H s (andNotEq H r k s) :=
  ⟨[Ev.load r (load H r s).1, Ev.andNotEq r k], andNotEq_trace H r k s,
    fun l => ⟨(load H r s).1, by simp [replay, Ev.step, andNotEq, load, St.mach]⟩⟩

theorem logged_disable_irq (H : Hw σ) (s : St σ) : Logged H s (disable_irq s) :=
  ⟨[Ev.irqOff], rfl, fun l => ⟨l, by simp [replay, Ev.step, disable_irq, St.mach]⟩⟩

theorem logged_enable_irq (H : Hw σ) (s : St σ) : Logged H s (enable_irq s) :=
  ⟨[Ev.irqOn], rfl, fun l => ⟨l, by simp [replay, Ev.step, enable_irq, St.mach]⟩⟩

theorem logged_bufLoad (H : Hw σ) (i : Nat) (s : St σ) : Logged H s (bufLoad i s).2 :=
  ⟨[Ev.bufLoad i (s.buf.getD i 0)], rfl, fun l => ⟨l, by
    simp [replay, Ev.step, bufLoad, St.mach]⟩⟩

theorem logged_bufStore (H : Hw σ) (i v : Nat) (s : St σ) : Logged H s (bufStore i v s) :=
  ⟨[Ev.bufStore i v], rfl, fun l => ⟨l, by simp [replay, Ev.step, bufStore, St.mach]⟩⟩

theorem logged_receive (H : Hw σ) (i : Nat) (s : St σ) :
    Logged H s (bufStore i (i2c_receive_data H s).1 (i2c_receive_data H s).2) :=
  (logged_load H Reg.DR s).trans (logged_bufStore H i _ _)

theorem logged_send (H : Hw σ) (i : Nat) (s : St σ) :
    Logged H s (i2c_send_data H (bufLoad i s).1 (bufLoad i s).2) :=
  (logged_bufLoad H i s).trans (logged_store H Reg.DR _ _)

theorem logged_waitWhile (H : Hw σ) (r : Reg) (cont : Nat → Bool) :
    ∀ (fuel : Nat) (s s' : St σ), waitWhile H r cont fuel s = some s' → Logged H s s'
  | 0, s, s', h => by simp [waitWhile] at h
  | fuel + 1, s, s', h => by
    simp only [waitWhile] at h
    by_cases hc : cont (load H r s).1 = true
    · rw [if_pos hc] at h
      exact (logged_load H r s).trans (logged_waitWhile H r cont fuel _ _ h)
    · rw [if_neg hc] at h
      cases h
      exact logged_load H r s

theorem logged_i2c_stop (H : Hw σ) (fuel : Nat) (s s' : St σ)
    (h : i2c_stop H fuel s = some s') : Logged H s s' :=
  (logged_orEq H Reg.CR1 I2C_CR1_STOP s).trans (logged_waitWhile H _ _ fuel _ _ h)

theorem logged_I2C_Write_loop (H : Hw σ) (fuel : Nat) :
    ∀ (k i : Nat) (s s' : St σ), I2C_Write_loop H fuel k i s = some s' → Logged H s s'
  | 0, i, s, s', h => by
    simp only [I2C_Write_loop, Option.some.injEq] at h
    subst h
    exact Logged.refl H s
  | k + 1, i, s, s', h => by
    simp only [I2C_Write_loop, bind, Option.bind_eq_some] at h
    obtain ⟨s1, h1, h2⟩ := h
    exact ((logged_waitWhile H _ _ fuel _ _ h1).trans (logged_send H i s1)).trans
      (logged_I2C_Write_loop H fuel k (i + 1) _ _ h2)

theorem logged_I2C_Write (H : Hw σ) (fuel N addr : Nat) (s s' : St σ)
    (h : I2C_Write H fuel (N + 1) addr s = some s') : Logged H s s' := by
  have e : (N + 1 != 0) = true := by simp
  simp only [I2C_Write, e, if_true, bind, Option.bind_eq_some, Nat.add_sub_cancel] at h
  obtain ⟨s1, h1, s2, h2, s3, h3, s4, h4, s5, h5, h6⟩ := h
  have l1 : Logged H s s1 :=
    (logged_orEq H Reg.CR1 I2C_CR1_START s).trans (logged_waitWhile H _ _ fuel _ _ h1)
  have l2 : Logged H s1 s2 :=
    (logged_store H Reg.DR _ s1).trans (logged_waitWhile H _ _ fuel _ _ h2)
  have l3 : Logged H s2 s3 :=
    ((logged_load H Reg.SR2 s2).trans (logged_send H 0 _)).trans
      (logged_I2C_Write_loop H fuel N 1 _ _ h3)
  have l4 : Logged H s3 s4 := logged_waitWhile H _ _ fuel _ _ h4
  have l5 : Logged H s4 s5 := logged_i2c_stop H fuel _ _ h5
  have l6 : Logged H s5 s' := logged_waitWhile H _ _ fuel _ _ h6
  exact ((((l1.trans l2).trans l3).trans l4).trans l5).trans l6

/-! ## `I2C_Write` -/

theorem I2C_Write_loop_mono (H : Hw σ) :
    ∀ k i, Mono (fun n s => I2C_Write_loop H n k i s)
  | 0, _ => by intro n m s s' _ h; simpa [I2C_Write_loop] using h
  | k + 1, i => by
    have ih := I2C_Write_loop_mono H k (i + 1)
    exact seq_mono (waitWhile_mono H Reg.SR1 _)
      (pre_mono (fun s => i2c_send_data H (bufLoad i s).1 (bufLoad i s).2) ih)

theorem I2C_Write_loop_halts (H : Hw σ)
    (hx : Exits H Reg.SR1 (fun v => v &&& I2C_SR1_BTF != I2C_SR1_BTF)) :
    ∀ k i, Halts (fun n s => I2C_Write_loop H n k i s)
  | 0, _ => by intro s; exact ⟨0, s, rfl⟩
  | k + 1, i => by
    have ih := I2C_Write_loop_halts H hx k (i + 1)
    exact seq_halts (waitWhile_mono H Reg.SR1 _)
      (pre_mono (fun s => i2c_send_data H (bufLoad i s).1 (bufLoad i s).2)
        (I2C_Write_loop_mono H k (i + 1)))
      (waitWhile_halts H Reg.SR1 _ hx)
      (pre_halts (fun s => i2c_send_data H (bufLoad i s).1 (bufLoad i s).2) ih)

theorem step_good {P Q : Nat → St σ → Option (St σ)} (f : St σ → St σ)
    (gP : Mono P ∧ Halts P) (gQ : Mono Q ∧ Halts Q) :
    Mono (fun n s => (P n (f s)).bind (Q n)) ∧ Halts (fun n s => (P n (f s)).bind (Q n)) :=
  ⟨step_mono f gP.1 gQ.1, step_halts f gP.1 gQ.1 gP.2 gQ.2⟩

theorem pre_good {P : Nat → St σ → Option (St σ)} (f : St σ → St σ)
    (gP : Mono P ∧ Halts P) :
    Mono (fun n s => P n (f s)) ∧ Halts (fun n s => P n (f s)) :=
  ⟨pre_mono f gP.1, pre_halts f gP.2⟩

theorem waitWhile_good (H : Hw σ) (r : Reg) (cont : Nat → Bool) (hx : Exits H r cont) :
    Mono (fun n s => waitWhile H r cont n s) ∧ Halts (fun n s => waitWhile H r cont n s) :=
  ⟨waitWhile_mono H r cont, waitWhile_halts H r cont hx⟩

theorem i2c_stop_good (H : Hw σ)
    (hx : Exits H Reg.CR1 (fun v => v &&& I2C_CR1_STOP != 0)) :
    Mono (fun n s => i2c_stop H n s) ∧ Halts (fun n s => i2c_stop H n s) :=
  ⟨i2c_stop_mono H, i2c_stop_halts H hx⟩

theorem I2C_Write_good (H : Hw σ) (hx : WriteWaitsExit H) (N addr : Nat) :
    Mono (fun n s => I2C_Write H n (N + 1) addr s) ∧
      Halts (fun n s => I2C_Write H n (N + 1) addr s) := by
  obtain ⟨hsb, haddr, hbtf, hstop, hfin⟩ := hx
  have e : (N + 1 != 0) = true := by simp
  simp only [I2C_Write, e, if_true, Nat.add_sub_cancel]
  refine step_good (i2c_start H 1) (waitWhile_good H Reg.SR1 _ hsb) ?_
  refine step_good (i2c_send_7bit_address H _) (waitWhile_good H Reg.SR1 _ haddr) ?_
  refine step_good
    (fun s => i2c_send_data H (bufLoad 0 (load H Reg.SR2 s).2).1 (bufLoad 0 (load H Reg.SR2 s).2).2)
    ⟨I2C_Write_loop_mono H N 1, I2C_Write_loop_halts H hbtf N 1⟩ ?_
  refine step_good id (waitWhile_good H Reg.SR1 _ hbtf) ?_
  refine step_good id (i2c_stop_good H hstop) ?_
  exact waitWhile_good H Reg.CR1 _ hfin

@[simp] theorem filter_isWrite_pollEv (r : Reg) (vs : List Nat) :
    (pollEv r vs).filter Ev.isWrite = [] := by
  induction vs with
  | nil => rfl
  | cons v vs ih =>
    simp only [pollEv, List.map_cons] at ih ⊢
    simp [List.filter_cons, Ev.isWrite, ih]

theorem filter_isWrite_writeLoopEv (buf : List Nat) :
    ∀ (ps : List (List Nat)) (i : Nat),
      (writeLoopEv buf i ps).filter Ev.isWrite
        = (List.range ps.length).map (fun k => Ev.store Reg.DR (buf.getD (i + k) 0))
  | [], i => by simp [writeLoopEv]
  | p :: ps, i => by
    have ih := filter_isWrite_writeLoopEv buf ps (i + 1)
    simp only [writeLoopEv, List.filter_append, filter_isWrite_pollEv, ih, List.length_cons,
      List.range_succ_eq_map, List.map_cons, List.map_map]
    simp [List.filter_cons, Ev.isWrite, Function.comp_def, Nat.add_assoc, Nat.add_comm 1]

/-- The loop of `I2C_Write` entered with `k` bytes left sends the `k` bytes at
offsets `i .. i + k - 1`, each after one complete wait for BTF. -/
theorem I2C_Write_loop_spec (H : Hw σ) (fuel : Nat) :
    ∀ (k i : Nat) (s s' : St σ), I2C_Write_loop H fuel k i s = some s' →
      s'.buf = s.buf ∧
      ∃ ps : List (List Nat), ps.length = k ∧
        (∀ p ∈ ps, completes (fun v => v &&& I2C_SR1_BTF != I2C_SR1_BTF) p = true) ∧
        s'.trace = s.trace ++ writeLoopEv s.buf i ps
  | 0, i, s, s', h => by
    simp only [I2C_Write_loop, Option.some.injEq] at h
    subst h
    exact ⟨rfl, [], rfl, by simp, by simp [writeLoopEv]⟩
  | k + 1, i, s, s', h => by
    simp only [I2C_Write_loop, bind, Option.bind_eq_some] at h
    obtain ⟨s1, h1, h2⟩ := h
    obtain ⟨hb1, _, p, hp, ht1⟩ := waitWhile_spec H _ _ _ _ _ h1
    obtain ⟨hb2, ps, hlen, hall, ht2⟩ := I2C_Write_loop_spec H fuel k (i + 1) _ _ h2
    simp only [i2c_send_data, store_buf, bufLoad_buf, store_trace, bufLoad_trace,
      bufLoad_val] at hb2 ht2
    refine ⟨by rw [hb2, hb1], p :: ps, by simp [hlen], ?_, ?_⟩
    · intro q hq
      rcases List.mem_cons.1 hq with rfl | hq
      · exact hp
      · exact hall q hq
    · rw [ht2, ht1, hb1]
      simp [writeLoopEv, List.append_assoc]

theorem map_getD_range (buf : List Nat) :
    (List.range buf.length).map (fun k => buf.getD k 0) = buf := by
  apply List.ext_getElem
  · simp
  · intro n h1 h2
    simp only [List.length_map, List.length_range] at h1
    simp [h2]

/-- Shape of the whole trace of a returning `I2C_Write` with `nbyte = N + 1`. -/
theorem I2C_Write_trace (H : Hw σ) (fuel N addr : Nat) (s s' : St σ)
    (h : I2C_Write H fuel (N + 1) addr s = some s') :
    ∃ (c1 c2 sr2 : Nat) (p1 p2 p3 p4 p5 : List Nat) (ps : List (List Nat)),
      ps.length = N ∧
      completes (fun v => v &&& I2C_SR1_SB != 0) p1 = true ∧
      completes (fun v => v &&& I2C_CR1_STOP != 0) p4 = true ∧
      s'.trace = s.trace ++
        ([Ev.load Reg.CR1 c1, Ev.orEq Reg.CR1 I2C_CR1_START] ++ pollEv Reg.SR1 p1 ++
          [Ev.store Reg.DR ((addr &&& bnot32 I2C_OAR1_ADD1) % 256)] ++ pollEv Reg.SR1 p2 ++
          [Ev.load Reg.SR2 sr2, Ev.bufLoad 0 (s.buf.getD 0 0),
            Ev.store Reg.DR (s.buf.getD 0 0)] ++
          writeLoopEv s.buf 1 ps ++ pollEv Reg.SR1 p3 ++
          [Ev.load Reg.CR1 c2, Ev.orEq Reg.CR1 I2C_CR1_STOP] ++
          pollEv Reg.CR1 p4 ++ pollEv Reg.CR1 p5) := by
  have e : (N + 1 != 0) = true := by simp
  simp only [I2C_Write, e, if_true, bind, Option.bind_eq_some, Nat.add_sub_cancel] at h
  obtain ⟨s1, h1, s2, h2, s3, h3, s4, h4, s5, h5, h6⟩ := h
  obtain ⟨b1, _, p1, hp1, t1⟩ := waitWhile_spec H _ _ _ _ _ h1
  obtain ⟨b2, _, p2, _, t2⟩ := waitWhile_spec H _ _ _ _ _ h2
  obtain ⟨b3, ps, hlen, _, t3⟩ := I2C_Write_loop_spec H fuel N 1 _ _ h3
  obtain ⟨_, _, p3, _, t4⟩ := waitWhile_spec H _ _ _ _ _ h4
  obtain ⟨_, _, p4, hp4, t5⟩ := waitWhile_spec H _ _ _ _ _ h5
  obtain ⟨_, _, p5, _, t6⟩ := waitWhile_spec H _ _ _ _ _ h6
  simp only [i2c_start, i2c_send_7bit_address, i2c_send_data, orEq_trace, orEq_buf,
    store_trace, store_buf, load_trace, load_buf, bufLoad_trace, bufLoad_buf,
    bufLoad_val] at b1 b2 b3 t1 t2 t3 t5
  have ht := t6
  rw [t5, t4, t3, t2, t1, b2, b1] at ht
  simp only [List.append_assoc, List.cons_append, List.nil_append] at ht
  exact ⟨_, _, _, p1, p2, p3, p4, p5, ps, hlen, hp1, hp4, by
    simpa only [List.append_assoc, List.cons_append, List.nil_append] using ht⟩

/-- C1: for every `N >= 1` and every buffer of `N` bytes, on hardware on which
every polled wait of `I2C_Write` eventually exits, the call returns, and the
register modifications of every returning run are, in order: one setting of
START in CR1, one load of the address byte into DR, the `N` bytes `buf[0..N-1]`
written to DR, one setting of STOP in CR1; after the setting of STOP the run
reads CR1 with STOP clear before it returns.  These accesses are what the run
did to the hardware: the device state on return is the one reached by performing
the logged accesses in order, where `CR1 |= bit` writes the value just read from
CR1 with the bit set and a DR write stores the logged byte. -/
theorem I2C_Write_sequence (H : Hw σ) (N addr : Nat) (s : St σ)
    (hN : 1 ≤ N) (hlen : s.buf.length = N) (hx : WriteWaitsExit H) :
    (∃ fuel s', I2C_Write H fuel N addr s = some s') ∧
    ∀ fuel s', I2C_Write H fuel N addr s = some s' →
      ∃ t, s'.trace = s.trace ++ t ∧
        (∀ l, ∃ l', replay H t (s.mach l) = some (s'.mach l')) ∧
        t.filter Ev.isWrite
          = [Ev.orEq Reg.CR1 I2C_CR1_START,
              Ev.store Reg.DR ((addr &&& bnot32 I2C_OAR1_ADD1) % 256)]
            ++ s.buf.map (Ev.store Reg.DR) ++ [Ev.orEq Reg.CR1 I2C_CR1_STOP] ∧
        ∃ t1 t2 v, t = t1 ++ Ev.orEq Reg.CR1 I2C_CR1_STOP :: t2 ∧
          Ev.load Reg.CR1 v ∈ t2 ∧ v &&& I2C_CR1_STOP = 0 := by
  obtain ⟨M, rfl⟩ : ∃ M, N = M + 1 := ⟨N - 1, by omega⟩
  refine ⟨(I2C_Write_good H hx M addr).2 s, ?_⟩
  intro fuel s' h
  obtain ⟨c1, c2, sr2, p1, p2, p3, p4, p5, ps, hps, _, hp4, ht⟩ :=
    I2C_Write_trace H fuel M addr s s' h
  refine ⟨_, ht, (logged_I2C_Write H fuel M addr s s' h).replay_of_trace ht, ?_, ?_⟩
  · simp only [List.filter_append, filter_isWrite_pollEv, filter_isWrite_writeLoopEv, hps]
    have hb : s.buf.map (Ev.store Reg.DR)
        = Ev.store Reg.DR (s.buf.getD 0 0)
          :: (List.range M).map (fun k => Ev.store Reg.DR (s.buf.getD (1 + k) 0)) := by
      conv_lhs => rw [← map_getD_range s.buf, hlen]
      simp [List.range_succ_eq_map, Function.comp_def, Nat.add_comm]
    rw [hb]
    simp [List.filter_cons, Ev.isWrite]
  · obtain ⟨ws, v, hw, hv, _⟩ := completes_getLast hp4
    refine ⟨[Ev.load Reg.CR1 c1, Ev.orEq Reg.CR1 I2C_CR1_START] ++ pollEv Reg.SR1 p1 ++
        [Ev.store Reg.DR ((addr &&& bnot32 I2C_OAR1_ADD1) % 256)] ++ pollEv Reg.SR1 p2 ++
        [Ev.load Reg.SR2 sr2, Ev.bufLoad 0 (s.buf.getD 0 0),
          Ev.store Reg.DR (s.buf.getD 0 0)] ++
        writeLoopEv s.buf 1 ps ++ pollEv Reg.SR1 p3 ++ [Ev.load Reg.CR1 c2],
      pollEv Reg.CR1 p4 ++ pollEv Reg.CR1 p5, v, ?_, ?_, ?_⟩
    · simp only [List.append_assoc, List.cons_append, List.nil_append]
    · simp [hw, pollEv]
    · simpa using hv

/-! ## The test double satisfies the waits -/

theorem and_const_mod (x a b : Nat) :
    (x &&& a) % 4294967296 &&& b = x &&& (a &&& (4294967295 &&& b)) := by
  have h := Nat.and_pow_two_sub_one_eq_mod (x &&& a) 32
  norm_num at h
  rw [← h, Nat.land_assoc, Nat.land_assoc]

theorem dbl_sr1_exits (cont : Nat → Bool) (h : cont 0 = false ∨ cont 4294967295 = false) :
    Exits dbl Reg.SR1 cont := by
  intro d
  refine ⟨2, ?_⟩
  rcases d with ⟨c, ph, nx⟩
  cases ph <;> rcases h with h | h <;> simp [pollExits, dbl, h]

theorem dbl_cr1_exits (cont : Nat → Bool)
    (h : ∀ x, cont ((x &&& bnot32 (I2C_CR1_START ||| I2C_CR1_STOP)) % 4294967296) = false) :
    Exits dbl Reg.CR1 cont := by
  intro d
  refine ⟨2, ?_⟩
  simp [pollExits, dbl, h]

theorem dbl_write_waits : WriteWaitsExit dbl := by
  refine ⟨dbl_sr1_exits _ (Or.inl (by decide)), dbl_sr1_exits _ (Or.inr (by decide)),
    dbl_sr1_exits _ (Or.inr (by decide)), dbl_cr1_exits _ ?_, dbl_cr1_exits _ ?_⟩
  · intro x
    have : (x &&& bnot32 (I2C_CR1_START ||| I2C_CR1_STOP)) % 4294967296 &&& I2C_CR1_STOP = 0 := by
      rw [and_const_mod]
      have : bnot32 (I2C_CR1_START ||| I2C_CR1_STOP) &&& (4294967295 &&& I2C_CR1_STOP) = 0 := by decide
      rw [this]; simp
    simp [this]
  · intro x
    have h1 : ((x &&& bnot32 (I2C_CR1_START ||| I2C_CR1_STOP)) % 4294967296
        &&& bnot32 I2C_CR1_STOP) &&& I2C_CR1_START = 0 := by
      rw [Nat.land_assoc, and_const_mod]
      have : bnot32 (I2C_CR1_START ||| I2C_CR1_STOP) &&& (4294967295 &&& (bnot32 I2C_CR1_STOP &&& I2C_CR1_START)) = 0 := by decide
      rw [this]; simp
    have h2 : bnot32 I2C_CR1_STOP &&& I2C_CR1_START ≠ 0 := by decide
    simp only [beq_eq_false_iff_ne, ne_eq]
    intro he
    rw [he] at h1
    exact h2 h1

theorem I2C_Write_sequence_witness :
    (1 ≤ 2 ∧ (init [0x6B, 0] false).buf.length = 2 ∧ WriteWaitsExit dbl) ∧
    ((∃ fuel s', I2C_Write dbl fuel 2 0x68 (init [0x6B, 0] false) = some s') ∧
    ∀ fuel s', I2C_Write dbl fuel 2 0x68 (init [0x6B, 0] false) = some s' →
      ∃ t, s'.trace = (init [0x6B, 0] false).trace ++ t ∧
        (∀ l, ∃ l', replay dbl t ((init [0x6B, 0] false).mach l) = some (s'.mach l')) ∧
        t.filter Ev.isWrite
          = [Ev.orEq Reg.CR1 I2C_CR1_START,
              Ev.store Reg.DR ((0x68 &&& bnot32 I2C_OAR1_ADD1) % 256)]
            ++ (init [0x6B, 0] false).buf.map (Ev.store Reg.DR)
            ++ [Ev.orEq Reg.CR1 I2C_CR1_STOP] ∧
        ∃ t1 t2 v, t = t1 ++ Ev.orEq Reg.CR1 I2C_CR1_STOP :: t2 ∧
          Ev.load Reg.CR1 v ∈ t2 ∧ v &&& I2C_CR1_STOP = 0) :=
  ⟨⟨by decide, rfl, dbl_write_waits⟩,
    I2C_Write_sequence dbl 2 0x68 (init [0x6B, 0] false) (by decide) rfl dbl_write_waits⟩

/-- C9: with `nbyte = 0` both `I2C_Write` and `I2C_Read` return at once with the
state untouched: no register is read or written (device state and trace are
unchanged), the interrupt mask is unchanged and the buffer is neither read nor
written. -/
theorem zero_length_is_no_op (H : Hw σ) (fuel addr : Nat) (s : St σ) :
    I2C_Write H fuel 0 addr s = some s ∧ I2C_Read H fuel 0 addr s = some s :=
  ⟨rfl, rfl⟩

/-! ## `I2C_Read`, the loop of the `nbyte >= 3` branch -/

theorem I2C_Read_loop_step (H : Hw σ) (fuel n i : Nat) (s : St σ)
    (h1 : n + 1 ≠ 3) (h2 : n ≠ 3) :
    I2C_Read_loop H fuel (n + 1) i s =
      (waitWhile H Reg.SR1 (fun v => v &&& I2C_SR1_BTF != 0) fuel s).bind (fun s1 =>
        I2C_Read_loop H fuel n (i + 1)
          (bufStore i (i2c_receive_data H s1).1 (i2c_receive_data H s1).2)) := by
  have e1 : (n + 1 != 3) = true := by simpa using h1
  have e2 : (n == 3) = false := by simpa using h2
  simp only [I2C_Read_loop, e1, e2, if_true, bind, Option.bind_eq_bind]
  simp

theorem I2C_Read_loop_four (H : Hw σ) (fuel i : Nat) (s : St σ) :
    I2C_Read_loop H fuel 4 i s =
      (waitWhile H Reg.SR1 (fun v => v &&& I2C_SR1_BTF != 0) fuel s).bind (fun s1 =>
        I2C_Read_last3 H fuel (i + 1)
          (bufStore i (i2c_receive_data H s1).1 (i2c_receive_data H s1).2)) := by
  simp only [I2C_Read_loop, bind, Option.bind_eq_bind]
  simp

theorem I2C_Read_loop_three (H : Hw σ) (fuel i : Nat) (s : St σ) :
    I2C_Read_loop H fuel 3 i s =
      (waitWhile H Reg.SR1 (fun v => v &&& I2C_SR1_BTF != 0) fuel s).bind (fun s1 =>
        (waitWhile H Reg.SR1 (fun v => v &&& I2C_SR1_BTF != 0) fuel
          (bufStore i (i2c_receive_data H s1).1 (i2c_receive_data H s1).2)).bind (fun s2 =>
            some (bufStore (i + 1) (i2c_receive_data H s2).1 (i2c_receive_data H s2).2))) := by
  simp only [I2C_Read_loop, bind, Option.bind_eq_bind]
  simp

theorem I2C_Read_last3_good (H : Hw σ) (i : Nat)
    (hbtf : Exits H Reg.SR1 (fun v => v &&& I2C_SR1_BTF != 0))
    (hstop : Exits H Reg.CR1 (fun v => v &&& I2C_CR1_STOP != 0))
    (hrxne : Exits H Reg.SR1 (fun v => v &&& I2C_SR1_RXNE != 0)) :
    Mono (fun n s => I2C_Read_last3 H n i s) ∧ Halts (fun n s => I2C_Read_last3 H n i s) := by
  simp only [I2C_Read_last3]
  refine step_good id (waitWhile_good H Reg.SR1 _ hbtf) ?_
  refine step_good
    (fun s => bufStore i
      (i2c_receive_data H (disable_irq (andNotEq H Reg.CR1 I2C_CR1_ACK s))).1
      (i2c_receive_data H (disable_irq (andNotEq H Reg.CR1 I2C_CR1_ACK s))).2)
    (i2c_stop_good H hstop) ?_
  refine step_good
    (fun s => enable_irq (bufStore (i + 1) (i2c_receive_data H s).1 (i2c_receive_data H s).2))
    (waitWhile_good H Reg.SR1 _ hrxne) ?_
  exact ⟨pure_mono _, pure_halts _⟩

theorem I2C_Read_loop_good (H : Hw σ)
    (hbtf : Exits H Reg.SR1 (fun v => v &&& I2C_SR1_BTF != 0))
    (hstop : Exits H Reg.CR1 (fun v => v &&& I2C_CR1_STOP != 0))
    (hrxne : Exits H Reg.SR1 (fun v => v &&& I2C_SR1_RXNE != 0)) :
    ∀ k i, Mono (fun n s => I2C_Read_loop H n (k + 4) i s) ∧
      Halts (fun n s => I2C_Read_loop H n (k + 4) i s)
  | 0, i => by
    simp only [Nat.zero_add, I2C_Read_loop_four]
    exact step_good id (waitWhile_good H Reg.SR1 _ hbtf)
      (pre_good (fun s => bufStore i (i2c_receive_data H s).1 (i2c_receive_data H s).2)
        (I2C_Read_last3_good H (i + 1) hbtf hstop hrxne))
  | k + 1, i => by
    have ih := I2C_Read_loop_good H hbtf hstop hrxne k (i + 1)
    have e : ∀ n s, I2C_Read_loop H n (k + 1 + 4) i s = _ :=
      fun n s => I2C_Read_loop_step H n (k + 4) i s (by omega) (by omega)
    simp only [e]
    exact step_good id (waitWhile_good H Reg.SR1 _ hbtf)
      (pre_good (fun s => bufStore i (i2c_receive_data H s).1 (i2c_receive_data H s).2) ih)

/-- Trace and buffer after the three-bytes-left arm. -/
theorem I2C_Read_last3_spec (H : Hw σ) (fuel i : Nat) (s s' : St σ)
    (h : I2C_Read_last3 H fuel i s = some s') :
    ∃ (p1 p2 p3 : List Nat) (c1 v1 c2 v2 v3 : Nat),
      completes (fun v => v &&& I2C_SR1_BTF != 0) p1 = true ∧
      completes (fun v => v &&& I2C_CR1_STOP != 0) p2 = true ∧
      completes (fun v => v &&& I2C_SR1_RXNE != 0) p3 = true ∧
      s'.trace = s.trace ++ lastThreeEv i p1 c1 v1 c2 p2 v2 p3 v3 ∧
      s'.buf = storeAll s.buf i [v1 % 256, v2 % 256, v3 % 256] := by
  simp only [I2C_Read_last3, bind, Option.bind_eq_some, Option.some.injEq] at h
  obtain ⟨s1, h1, s2, h2, s3, h3, h4⟩ := h
  obtain ⟨b1, _, p1, hp1, t1⟩ := waitWhile_spec H _ _ _ _ _ h1
  obtain ⟨b2, _, p2, hp2, t2⟩ := waitWhile_spec H _ _ _ _ _ h2
  obtain ⟨b3, _, p3, hp3, t3⟩ := waitWhile_spec H _ _ _ _ _ h3
  simp only [orEq_trace, orEq_buf, bufStore_trace, bufStore_buf, i2c_receive_data_trace,
    i2c_receive_data_val, i2c_receive_data_buf, disable_irq_trace, disable_irq_buf,
    enable_irq_trace, enable_irq_buf, andNotEq_trace, andNotEq_buf] at b2 b3 t2 t3
  subst h4
  refine ⟨p1, p2, p3, (load H Reg.CR1 s1).1,
    (load H Reg.DR (disable_irq (andNotEq H Reg.CR1 I2C_CR1_ACK s1))).1,
    (load H Reg.CR1
      (bufStore i ((load H Reg.DR (disable_irq (andNotEq H Reg.CR1 I2C_CR1_ACK s1))).1 % 256)
        (i2c_receive_data H (disable_irq (andNotEq H Reg.CR1 I2C_CR1_ACK s1))).2)).1,
    (load H Reg.DR s2).1, (load H Reg.DR s3).1, hp1, hp2, hp3, ?_, ?_⟩
  · simp only [bufStore_trace, i2c_receive_data_trace, i2c_receive_data_val, t3, t2, t1,
      lastThreeEv, List.append_assoc, List.cons_append, List.nil_append]
  · simp only [bufStore_buf, i2c_receive_data_buf, i2c_receive_data_val, b3, b2, b1, storeAll]

/-- The loop entered with `nbyte = k + 4` makes `k + 1` single reads and then
runs the three-bytes-left arm. -/
theorem I2C_Read_loop_spec (H : Hw σ) (fuel : Nat) :
    ∀ (k i : Nat) (s s' : St σ), I2C_Read_loop H fuel (k + 4) i s = some s' →
      ∃ (singles : List (List Nat × Nat)) (p1 p2 p3 : List Nat) (c1 v1 c2 v2 v3 : Nat),
        singles.length = k + 1 ∧
        (∀ x ∈ singles, completes (fun v => v &&& I2C_SR1_BTF != 0) x.1 = true) ∧
        completes (fun v => v &&& I2C_SR1_BTF != 0) p1 = true ∧
        completes (fun v => v &&& I2C_CR1_STOP != 0) p2 = true ∧
        completes (fun v => v &&& I2C_SR1_RXNE != 0) p3 = true ∧
        s'.trace = s.trace ++
          (singleReadsEv i singles ++ lastThreeEv (i + (k + 1)) p1 c1 v1 c2 p2 v2 p3 v3) ∧
        s'.buf = storeAll s.buf i
          (singles.map (fun x => x.2 % 256) ++ [v1 % 256, v2 % 256, v3 % 256])
  | 0, i, s, s', h => by
    simp only [Nat.zero_add, I2C_Read_loop_four, Option.bind_eq_some] at h
    obtain ⟨s1, h1, h2⟩ := h
    obtain ⟨b1, _, p, hp, t1⟩ := waitWhile_spec H _ _ _ _ _ h1
    obtain ⟨p1, p2, p3, c1, v1, c2, v2, v3, hp1, hp2, hp3, t2, b2⟩ :=
      I2C_Read_last3_spec H fuel _ _ _ h2
    simp only [bufStore_trace, bufStore_buf, i2c_receive_data_trace, i2c_receive_data_val,
      i2c_receive_data_buf] at t2 b2
    refine ⟨[(p, (load H Reg.DR s1).1)], p1, p2, p3, c1, v1, c2, v2, v3, rfl, ?_,
      hp1, hp2, hp3, ?_, ?_⟩
    · intro x hx
      rw [List.mem_singleton.1 hx]
      exact hp
    · rw [t2, t1]
      simp only [singleReadsEv, List.append_assoc, List.cons_append, List.nil_append,
        List.append_nil]
    · rw [b2, b1]
      simp only [List.map_cons, List.map_nil, List.cons_append, List.nil_append, storeAll]
  | k + 1, i, s, s', h => by
    rw [I2C_Read_loop_step H fuel (k + 4) i s (by omega) (by omega)] at h
    simp only [Option.bind_eq_some] at h
    obtain ⟨s1, h1, h2⟩ := h
    obtain ⟨b1, _, p, hp, t1⟩ := waitWhile_spec H _ _ _ _ _ h1
    obtain ⟨singles, p1, p2, p3, c1, v1, c2, v2, v3, hlen, hall, hp1, hp2, hp3, t2, b2⟩ :=
      I2C_Read_loop_spec H fuel k (i + 1) _ _ h2
    simp only [bufStore_trace, bufStore_buf, i2c_receive_data_trace, i2c_receive_data_val,
      i2c_receive_data_buf] at t2 b2
    refine ⟨(p, (load H Reg.DR s1).1) :: singles, p1, p2, p3, c1, v1, c2, v2, v3,
      by simp [hlen], ?_, hp1, hp2, hp3, ?_, ?_⟩
    · intro x hx
      rcases List.mem_cons.1 hx with rfl | hx
      · exact hp
      · exact hall x hx
    · rw [t2, t1]
      have e : i + 1 + (k + 1) = i + (k + 1 + 1) := by omega
      simp only [singleReadsEv, List.append_assoc, List.cons_append, List.nil_append, e]
    · rw [b2, b1]
      rfl

@[simp] theorem filter_isData_pollEv (r : Reg) (hr : r ≠ Reg.DR) (vs : List Nat) :
    (pollEv r vs).filter Ev.isData = [] := by
  induction vs with
  | nil => rfl
  | cons v vs ih =>
    simp only [pollEv, List.map_cons] at ih ⊢
    cases r <;> simp_all [List.filter_cons, Ev.isData]

theorem storeAll_getElem? : ∀ (vs buf : List Nat) (i j : Nat),
    (storeAll buf i vs)[j]? =
      if i ≤ j ∧ j < i + vs.length ∧ j < buf.length then vs[j - i]? else buf[j]?
  | [], buf, i, j => by
    simp only [storeAll, List.length_nil, Nat.add_zero]
    rw [if_neg (by omega)]
  | v :: vs, buf, i, j => by
    simp only [storeAll, List.length_cons]
    rw [storeAll_getElem? vs]
    simp only [List.length_set]
    by_cases h1 : i = j
    · subst h1
      rw [if_neg (by omega)]
      by_cases h2 : i < buf.length
      · rw [if_pos (by omega)]
        simp [h2]
      · rw [if_neg (by omega)]
        simp only [not_lt] at h2
        rw [List.getElem?_eq_none (by simpa using h2), List.getElem?_eq_none h2]
    · by_cases h3 : i + 1 ≤ j ∧ j < i + 1 + vs.length ∧ j < buf.length
      · rw [if_pos h3, if_pos (by omega)]
        obtain ⟨d, rfl⟩ : ∃ d, j = i + 1 + d := ⟨j - (i + 1), by omega⟩
        have e1 : i + 1 + d - (i + 1) = d := by omega
        have e2 : i + 1 + d - i = d + 1 := by omega
        rw [e1, e2]
        simp
      · rw [if_neg h3, if_neg (by omega)]
        rw [List.getElem?_set_ne h1]

/-- Storing as many bytes as the buffer holds, from offset 0, leaves exactly
those bytes in the buffer. -/
theorem storeAll_full (vs buf : List Nat) (h : buf.length = vs.length) :
    storeAll buf 0 vs = vs := by
  apply List.ext_getElem?
  intro j
  rw [storeAll_getElem?]
  by_cases hj : j < vs.length
  · rw [if_pos (by omega)]; simp
  · rw [if_neg (by omega)]
    simp only [not_lt] at hj
    rw [List.getElem?_eq_none (by omega), List.getElem?_eq_none hj]

/-! ## `I2C_Read` with four or more bytes -/

theorem logged_I2C_Read_last3 (H : Hw σ) (fuel i : Nat) (s s' : St σ)
    (h : I2C_Read_last3 H fuel i s = some s') : Logged H s s' := by
  simp only [I2C_Read_last3, bind, Option.bind_eq_some, Option.some.injEq] at h
  obtain ⟨s1, h1, s2, h2, s3, h3, h4⟩ := h
  subst h4
  have l1 : Logged H s s1 := logged_waitWhile H _ _ fuel _ _ h1
  have l2 : Logged H s1 s2 :=
    ((((logged_andNotEq H Reg.CR1 I2C_CR1_ACK s1).trans (logged_disable_irq H _)).trans
      (logged_receive H i _)).trans (logged_i2c_stop H fuel _ _ h2))
  have l3 : Logged H s2 s3 :=
    ((logged_receive H (i + 1) s2).trans (logged_enable_irq H _)).trans
      (logged_waitWhile H _ _ fuel _ _ h3)
  exact ((l1.trans l2).trans l3).trans (logged_receive H (i + 2) s3)

theorem logged_I2C_Read_loop (H : Hw σ) (fuel : Nat) :
    ∀ (k i : Nat) (s s' : St σ), I2C_Read_loop H fuel (k + 4) i s = some s' → Logged H s s'
  | 0, i, s, s', h => by
    simp only [Nat.zero_add, I2C_Read_loop_four, Option.bind_eq_some] at h
    obtain ⟨s1, h1, h2⟩ := h
    exact ((logged_waitWhile H _ _ fuel _ _ h1).trans (logged_receive H i s1)).trans
      (logged_I2C_Read_last3 H fuel _ _ _ h2)
  | k + 1, i, s, s', h => by
    rw [I2C_Read_loop_step H fuel (k + 4) i s (by omega) (by omega)] at h
    simp only [Option.bind_eq_some] at h
    obtain ⟨s1, h1, h2⟩ := h
    exact ((logged_waitWhile H _ _ fuel _ _ h1).trans (logged_receive H i s1)).trans
      (logged_I2C_Read_loop H fuel k (i + 1) _ _ h2)

theorem logged_I2C_Read_long (H : Hw σ) (fuel k addr : Nat) (s s' : St σ)
    (h : I2C_Read H fuel (k + 4) addr s = some s') : Logged H s s' := by
  have e0 : (k + 4 == 0) = false := by simp
  have e1 : (k + 4 == 1) = false := by simp
  have e2 : (k + 4 == 2) = false := by simp
  simp only [I2C_Read, e0, e1, e2, if_false, Bool.false_eq_true, bind, Option.bind_eq_some,
    Option.some.injEq] at h
  obtain ⟨s1, h1, s2, h2, s3, h3, s4, h4, s5, h5, s6, h6, s7, h7, h8⟩ := h
  subst h8
  have l1 : Logged H s s1 :=
    ((logged_orEq H Reg.CR2 I2C_IT_ERR s).trans (logged_orEq H Reg.CR1 I2C_CR1_ACK _)).trans
      (logged_waitWhile H _ _ fuel _ _ h1)
  have l2 : Logged H s1 s2 := logged_waitWhile H _ _ fuel _ _ h2
  have l3 : Logged H s2 s3 := logged_i2c_stop H fuel _ _ h3
  have l4 : Logged H s3 s4 := logged_waitWhile H _ _ fuel _ _ h4
  have l5 : Logged H s4 s5 :=
    (logged_store H Reg.DR _ s4).trans (logged_waitWhile H _ _ fuel _ _ h5)
  have l6 : Logged H s5 s6 :=
    (logged_load H Reg.SR2 s5).trans (logged_I2C_Read_loop H fuel k 0 _ _ h6)
  have l7 : Logged H s6 s7 := logged_waitWhile H _ _ fuel _ _ h7
  exact ((((((l1.trans l2).trans l3).trans l4).trans l5).trans l6).trans l7).trans
    (logged_orEq H Reg.CR1 I2C_CR1_ACK s7)


theorem I2C_Read_long_good (H : Hw σ) (hx : ReadWaitsExit H) (k addr : Nat) :
    Mono (fun n s => I2C_Read H n (k + 4) addr s) ∧
      Halts (fun n s => I2C_Read H n (k + 4) addr s) := by
  obtain ⟨haddr0, htra, hstop, hsb, haddr, hbtf, hrxne, hfin⟩ := hx
  have e0 : (k + 4 == 0) = false := by simp
  have e1 : (k + 4 == 1) = false := by simp
  have e2 : (k + 4 == 2) = false := by simp
  simp only [I2C_Read, e0, e1, e2, if_false, Bool.false_eq_true]
  refine step_good (fun s => orEq H Reg.CR1 I2C_CR1_ACK (orEq H Reg.CR2 I2C_IT_ERR s))
    (waitWhile_good H Reg.SR1 _ haddr0) ?_
  refine step_good id (waitWhile_good H Reg.SR2 _ htra) ?_
  refine step_good id (i2c_stop_good H hstop) ?_
  refine step_good id (waitWhile_good H Reg.SR1 _ hsb) ?_
  refine step_good (i2c_send_7bit_address H _) (waitWhile_good H Reg.SR1 _ haddr) ?_
  refine step_good (fun s => (load H Reg.SR2 s).2)
    (I2C_Read_loop_good H hbtf hstop hrxne k 0) ?_
  refine step_good id (waitWhile_good H Reg.CR1 _ hfin) ?_
  exact ⟨pure_mono _, pure_halts _⟩

/-- Shape of the whole trace of a returning `I2C_Read` with `nbyte = k + 4`. -/
theorem I2C_Read_long_trace (H : Hw σ) (fuel k addr : Nat) (s s' : St σ)
    (h : I2C_Read H fuel (k + 4) addr s = some s') :
    ∃ (a b c e f : Nat) (q1 q2 q3 q4 q5 q6 : List Nat)
      (singles : List (List Nat × Nat)) (p1 p2 p3 : List Nat) (c1 v1 c2 v2 v3 : Nat),
      singles.length = k + 1 ∧
      (∀ x ∈ singles, completes (fun v => v &&& I2C_SR1_BTF != 0) x.1 = true) ∧
      completes (fun v => v &&& I2C_SR1_BTF != 0) p1 = true ∧
      completes (fun v => v &&& I2C_CR1_STOP != 0) p2 = true ∧
      completes (fun v => v &&& I2C_SR1_RXNE != 0) p3 = true ∧
      s'.trace = s.trace ++
        (([Ev.load Reg.CR2 a, Ev.orEq Reg.CR2 I2C_IT_ERR,
            Ev.load Reg.CR1 b, Ev.orEq Reg.CR1 I2C_CR1_ACK] ++
            pollEv Reg.SR1 q1 ++ pollEv Reg.SR2 q2 ++
            [Ev.load Reg.CR1 c, Ev.orEq Reg.CR1 I2C_CR1_STOP] ++ pollEv Reg.CR1 q3 ++
            pollEv Reg.SR1 q4 ++ [Ev.store Reg.DR ((addr ||| I2C_OAR1_ADD1) % 256)] ++
            pollEv Reg.SR1 q5 ++ [Ev.load Reg.SR2 e]) ++
          singleReadsEv 0 singles ++ lastThreeEv (k + 1) p1 c1 v1 c2 p2 v2 p3 v3 ++
          (pollEv Reg.CR1 q6 ++ [Ev.load Reg.CR1 f, Ev.orEq Reg.CR1 I2C_CR1_ACK])) ∧
      s'.buf = storeAll s.buf 0
        (singles.map (fun x => x.2 % 256) ++ [v1 % 256, v2 % 256, v3 % 256]) := by
  have e0 : (k + 4 == 0) = false := by simp
  have e1 : (k + 4 == 1) = false := by simp
  have e2 : (k + 4 == 2) = false := by simp
  simp only [I2C_Read, e0, e1, e2, if_false, Bool.false_eq_true, bind, Option.bind_eq_some,
    Option.some.injEq] at h
  obtain ⟨s1, h1, s2, h2, s3, h3, s4, h4, s5, h5, s6, h6, s7, h7, h8⟩ := h
  obtain ⟨b1, _, q1, _, t1⟩ := waitWhile_spec H _ _ _ _ _ h1
  obtain ⟨b2, _, q2, _, t2⟩ := waitWhile_spec H _ _ _ _ _ h2
  obtain ⟨b3, _, q3, _, t3⟩ := waitWhile_spec H _ _ _ _ _ h3
  obtain ⟨b4, _, q4, _, t4⟩ := waitWhile_spec H _ _ _ _ _ h4
  obtain ⟨b5, _, q5, _, t5⟩ := waitWhile_spec H _ _ _ _ _ h5
  obtain ⟨singles, p1, p2, p3, c1, v1, c2, v2, v3, hlen, hall, hp1, hp2, hp3, t6, b6⟩ :=
    I2C_Read_loop_spec H fuel k 0 _ _ h6
  obtain ⟨b7, _, q6, _, t7⟩ := waitWhile_spec H _ _ _ _ _ h7
  simp only [i2c_send_7bit_address, orEq_trace, orEq_buf, store_trace, store_buf,
    load_trace, load_buf, Nat.zero_add] at b1 b3 b5 b6 t1 t3 t5 t6
  subst h8
  refine ⟨(load H Reg.CR2 s).1, (load H Reg.CR1 (orEq H Reg.CR2 I2C_IT_ERR s)).1,
    (load H Reg.CR1 s2).1, (load H Reg.SR2 s5).1, (load H Reg.CR1 s7).1,
    q1, q2, q3, q4, q5, q6, singles, p1, p2, p3, c1, v1, c2, v2, v3,
    hlen, hall, hp1, hp2, hp3, ?_, ?_⟩
  · simp only [orEq_trace, t7, t6, t5, t4, t3, t2, t1, List.append_assoc, List.cons_append,
      List.nil_append]
  · simp only [orEq_buf, b7, b6, b5, b4, b3, b2, b1]

theorem dbl_sr2_exits (cont : Nat → Bool) (h : cont 0 = false ∨ cont 4294967295 = false) :
    Exits dbl Reg.SR2 cont := by
  intro d
  refine ⟨2, ?_⟩
  rcases d with ⟨c, ph, nx⟩
  cases ph <;> rcases h with h | h <;> simp [pollExits, dbl, h]

theorem dbl_stop_reads_clear (x : Nat) :
    (x &&& bnot32 (I2C_CR1_START ||| I2C_CR1_STOP)) % 4294967296 &&& I2C_CR1_STOP = 0 := by
  rw [and_const_mod]
  have : bnot32 (I2C_CR1_START ||| I2C_CR1_STOP) &&& (4294967295 &&& I2C_CR1_STOP) = 0 := by
    decide
  rw [this]; simp

theorem dbl_read_waits : ReadWaitsExit dbl := by
  refine ⟨dbl_sr1_exits _ (Or.inl (by decide)), dbl_sr2_exits _ (Or.inl (by decide)),
    dbl_cr1_exits _ ?_, dbl_sr1_exits _ (Or.inr (by decide)),
    dbl_sr1_exits _ (Or.inr (by decide)), dbl_sr1_exits _ (Or.inl (by decide)),
    dbl_sr1_exits _ (Or.inl (by decide)), dbl_cr1_exits _ ?_⟩
  · intro x
    simp [dbl_stop_reads_clear x]
  · intro x
    rw [dbl_stop_reads_clear x]
    decide

theorem lor_land_self (v m : Nat) : (v ||| m) &&& m = m := by
  apply Nat.eq_of_testBit_eq
  intro i
  simp only [Nat.testBit_and, Nat.testBit_or]
  cases v.testBit i <;> cases m.testBit i <;> rfl

theorem clear_ack_clears (c : Nat) : (c &&& bnot32 I2C_CR1_ACK) &&& I2C_CR1_ACK = 0 := by
  have h : bnot32 I2C_CR1_ACK &&& I2C_CR1_ACK = 0 := by decide
  rw [Nat.land_assoc, h, Nat.and_zero]

/-- C10: for every `N >= 4`, on hardware on which every polled wait of the
`nbyte >= 3` branch eventually exits, `I2C_Read` returns, and in every returning
run the data accesses are exactly: `N - 3` single reads, each a complete wait on
the BTF flag of SR1 followed by a read of DR stored to the next buffer offset from
0; then the three-bytes-left arm at offset `N - 3`: one complete wait on BTF, one
clearing of ACK, a DR read into `buf[N-3]`, the stop assertion (with its wait),
a DR read into `buf[N-2]`, a complete wait on RXNE and a DR read into
`buf[N-1]`.  Nothing before or after the loop reads DR, touches the buffer or
clears ACK, and a buffer of `N` bytes holds on return the `N` bytes read, in the
order read.  These accesses are what the run did to the hardware: the device
state, the buffer and the interrupt mask on return are those reached by
performing the logged accesses in order, where the clearing of ACK writes the
value `c1` just read from CR1 with the ACK bit cleared and the stop assertion
writes the value `c2` just read with STOP set; the value written by the clearing
has ACK clear and the one written by the stop assertion has STOP set. -/
theorem I2C_Read_long_structure (H : Hw σ) (N addr : Nat) (s : St σ)
    (hN : 4 ≤ N) (hx : ReadWaitsExit H) :
    (∃ fuel s', I2C_Read H fuel N addr s = some s') ∧
    ∀ fuel s', I2C_Read H fuel N addr s = some s' →
      ∃ (pre post : List Ev) (singles : List (List Nat × Nat)) (p1 p2 p3 : List Nat)
        (c1 v1 c2 v2 v3 : Nat),
        s'.trace = s.trace ++
          (pre ++ singleReadsEv 0 singles ++ lastThreeEv (N - 3) p1 c1 v1 c2 p2 v2 p3 v3
            ++ post) ∧
        (∀ l, ∃ l', replay H
          (pre ++ singleReadsEv 0 singles ++ lastThreeEv (N - 3) p1 c1 v1 c2 p2 v2 p3 v3
            ++ post) (s.mach l) = some (s'.mach l')) ∧
        pre.filter Ev.isData = [] ∧ post.filter Ev.isData = [] ∧
        singles.length = N - 3 ∧
        (∀ x ∈ singles, completes (fun v => v &&& I2C_SR1_BTF != 0) x.1 = true) ∧
        completes (fun v => v &&& I2C_SR1_BTF != 0) p1 = true ∧
        completes (fun v => v &&& I2C_CR1_STOP != 0) p2 = true ∧
        completes (fun v => v &&& I2C_SR1_RXNE != 0) p3 = true ∧
        s'.buf = storeAll s.buf 0
          (singles.map (fun x => x.2 % 256) ++ [v1 % 256, v2 % 256, v3 % 256]) ∧
        (s.buf.length = N →
          s'.buf = singles.map (fun x => x.2 % 256) ++ [v1 % 256, v2 % 256, v3 % 256]) ∧
        (c1 &&& bnot32 I2C_CR1_ACK) &&& I2C_CR1_ACK = 0 ∧
        (c2 ||| I2C_CR1_STOP) &&& I2C_CR1_STOP = I2C_CR1_STOP := by
  obtain ⟨k, rfl⟩ : ∃ k, N = k + 4 := ⟨N - 4, by omega⟩
  refine ⟨(I2C_Read_long_good H hx k addr).2 s, ?_⟩
  intro fuel s' h
  obtain ⟨a, b, c, e, f, q1, q2, q3, q4, q5, q6, singles, p1, p2, p3, c1, v1, c2, v2, v3,
    hlen, hall, hp1, hp2, hp3, ht, hb⟩ := I2C_Read_long_trace H fuel k addr s s' h
  have e3 : k + 4 - 3 = k + 1 := by omega
  refine ⟨[Ev.load Reg.CR2 a, Ev.orEq Reg.CR2 I2C_IT_ERR,
      Ev.load Reg.CR1 b, Ev.orEq Reg.CR1 I2C_CR1_ACK] ++
      pollEv Reg.SR1 q1 ++ pollEv Reg.SR2 q2 ++
      [Ev.load Reg.CR1 c, Ev.orEq Reg.CR1 I2C_CR1_STOP] ++ pollEv Reg.CR1 q3 ++
      pollEv Reg.SR1 q4 ++ [Ev.store Reg.DR ((addr ||| I2C_OAR1_ADD1) % 256)] ++
      pollEv Reg.SR1 q5 ++ [Ev.load Reg.SR2 e],
    pollEv Reg.CR1 q6 ++ [Ev.load Reg.CR1 f, Ev.orEq Reg.CR1 I2C_CR1_ACK],
    singles, p1, p2, p3, c1, v1, c2, v2, v3, ?_, ?_, ?_, ?_, ?_, hall, hp1, hp2, hp3, hb, ?_,
    clear_ack_clears c1, lor_land_self c2 _⟩
  · rw [e3]; exact ht
  · rw [e3]; exact (logged_I2C_Read_long H fuel k addr s s' h).replay_of_trace ht
  · simp [List.filter_append, List.filter_cons, Ev.isData]
  · simp [List.filter_append, List.filter_cons, Ev.isData]
  · rw [e3]; exact hlen
  · intro hl
    rw [hb]
    apply storeAll_full
    simp [hl, hlen]

theorem I2C_Read_long_structure_witness :
    (4 ≤ 6 ∧ ReadWaitsExit dbl) ∧
    ((∃ fuel s', I2C_Read dbl fuel 6 0x68 (init [2, 2, 2, 2, 2, 2] false) = some s') ∧
    ∀ fuel s', I2C_Read dbl fuel 6 0x68 (init [2, 2, 2, 2, 2, 2] false) = some s' →
      ∃ (pre post : List Ev) (singles : List (List Nat × Nat)) (p1 p2 p3 : List Nat)
        (c1 v1 c2 v2 v3 : Nat),
        s'.trace = (init [2, 2, 2, 2, 2, 2] false).trace ++
          (pre ++ singleReadsEv 0 singles ++ lastThreeEv (6 - 3) p1 c1 v1 c2 p2 v2 p3 v3
            ++ post) ∧
        (∀ l, ∃ l', replay dbl
          (pre ++ singleReadsEv 0 singles ++ lastThreeEv (6 - 3) p1 c1 v1 c2 p2 v2 p3 v3
            ++ post) ((init [2, 2, 2, 2, 2, 2] false).mach l) = some (s'.mach l')) ∧
        pre.filter Ev.isData = [] ∧ post.filter Ev.isData = [] ∧
        singles.length = 6 - 3 ∧
        (∀ x ∈ singles, completes (fun v => v &&& I2C_SR1_BTF != 0) x.1 = true) ∧
        completes (fun v => v &&& I2C_SR1_BTF != 0) p1 = true ∧
        completes (fun v => v &&& I2C_CR1_STOP != 0) p2 = true ∧
        completes (fun v => v &&& I2C_SR1_RXNE != 0) p3 = true ∧
        s'.buf = storeAll (init [2, 2, 2, 2, 2, 2] false).buf 0
          (singles.map (fun x => x.2 % 256) ++ [v1 % 256, v2 % 256, v3 % 256]) ∧
        ((init [2, 2, 2, 2, 2, 2] false).buf.length = 6 →
          s'.buf = singles.map (fun x => x.2 % 256) ++ [v1 % 256, v2 % 256, v3 % 256]) ∧
        (c1 &&& bnot32 I2C_CR1_ACK) &&& I2C_CR1_ACK = 0 ∧
        (c2 ||| I2C_CR1_STOP) &&& I2C_CR1_STOP = I2C_CR1_STOP) :=
  ⟨⟨by decide, dbl_read_waits⟩,
    I2C_Read_long_structure dbl 6 0x68 (init [2, 2, 2, 2, 2, 2] false) (by decide)
      dbl_read_waits⟩

/-! ## `I2C_Read` with two bytes -/

@[simp] theorem filter_isPosStopData_pollEv (r : Reg) (hr : r ≠ Reg.DR) (vs : List Nat) :
    (pollEv r vs).filter Ev.isPosStopData = [] := by
  induction vs with
  | nil => rfl
  | cons v vs ih =>
    simp only [pollEv, List.map_cons] at ih ⊢
    cases r <;> simp_all [List.filter_cons, Ev.isPosStopData]

/-- The `nbyte == 2` branch of `I2C_Read` is its body followed by the last wait,
the clearing of POS and the setting of ACK. -/
theorem I2C_Read_two_eq (H : Hw σ) (fuel addr : Nat) (s : St σ) :
    I2C_Read H fuel 2 addr s =
      (I2C_Read_two_body H fuel addr s).bind (fun sb =>
        (waitWhile H Reg.CR1 (fun v => v &&& bnot32 I2C_CR1_STOP != 0) fuel sb).bind
          (fun s1 => some (orEq H Reg.CR1 I2C_CR1_ACK (andNotEq H Reg.CR1 I2C_CR1_POS s1)))) := by
  have e0 : ((2 : Nat) == 0) = false := by decide
  have e1 : ((2 : Nat) == 1) = false := by decide
  simp only [I2C_Read, I2C_Read_two_body, e0, e1, if_false, Bool.false_eq_true,
    beq_self_eq_true, if_true, bind, Option.bind_eq_bind, Option.bind_assoc, Option.some_bind]

theorem I2C_Read_two_body_good (H : Hw σ) (hx : ReadTwoWaitsExit H) (addr : Nat) :
    Mono (fun n s => I2C_Read_two_body H n addr s) ∧
      Halts (fun n s => I2C_Read_two_body H n addr s) := by
  obtain ⟨haddr0, htra, hsb, haddr, hbtf, hstop⟩ := hx
  simp only [I2C_Read_two_body]
  refine step_good (fun s => orEq H Reg.CR1 I2C_CR1_ACK (orEq H Reg.CR2 I2C_IT_ERR s))
    (waitWhile_good H Reg.SR1 _ haddr0) ?_
  refine step_good id (waitWhile_good H Reg.SR2 _ htra) ?_
  refine step_good (fun s => orEq H Reg.CR1 I2C_CR1_START (orEq H Reg.CR1 I2C_CR1_POS s))
    (waitWhile_good H Reg.SR1 _ hsb) ?_
  refine step_good (i2c_send_7bit_address H _) (waitWhile_good H Reg.SR1 _ haddr) ?_
  refine step_good
    (fun s => enable_irq (andNotEq H Reg.CR1 I2C_CR1_ACK (load H Reg.SR2 (disable_irq s)).2))
    (waitWhile_good H Reg.SR1 _ hbtf) ?_
  refine step_good disable_irq (i2c_stop_good H hstop) ?_
  exact ⟨pure_mono _, pure_halts _⟩

/-- Shape of the trace of the body of the `nbyte == 2` branch, and the buffer it
leaves. -/
theorem I2C_Read_two_body_trace (H : Hw σ) (fuel addr : Nat) (s sb : St σ)
    (h : I2C_Read_two_body H fuel addr s = some sb) :
    ∃ (a b c d e f g v0 v1 : Nat) (q1 q2 q3 q4 q5 q6 : List Nat),
      completes (fun v => v &&& I2C_CR1_STOP != 0) q6 = true ∧
      sb.trace = s.trace ++
        ([Ev.load Reg.CR2 a, Ev.orEq Reg.CR2 I2C_IT_ERR,
            Ev.load Reg.CR1 b, Ev.orEq Reg.CR1 I2C_CR1_ACK] ++
          pollEv Reg.SR1 q1 ++ pollEv Reg.SR2 q2 ++
          [Ev.load Reg.CR1 c, Ev.orEq Reg.CR1 I2C_CR1_POS,
            Ev.load Reg.CR1 d, Ev.orEq Reg.CR1 I2C_CR1_START] ++
          pollEv Reg.SR1 q3 ++ [Ev.store Reg.DR ((addr ||| I2C_OAR1_ADD1) % 256)] ++
          pollEv Reg.SR1 q4 ++
          [Ev.irqOff, Ev.load Reg.SR2 e, Ev.load Reg.CR1 f, Ev.andNotEq Reg.CR1 I2C_CR1_ACK,
            Ev.irqOn] ++
          pollEv Reg.SR1 q5 ++
          [Ev.irqOff, Ev.load Reg.CR1 g, Ev.orEq Reg.CR1 I2C_CR1_STOP] ++ pollEv Reg.CR1 q6 ++
          [Ev.load Reg.DR v0, Ev.bufStore 0 (v0 % 256), Ev.irqOn,
            Ev.load Reg.DR v1, Ev.bufStore 1 (v1 % 256)]) ∧
      sb.buf = storeAll s.buf 0 [v0 % 256, v1 % 256] := by
  simp only [I2C_Read_two_body, bind, Option.bind_eq_some, Option.some.injEq] at h
  obtain ⟨s1, h1, s2, h2, s3, h3, s4, h4, s5, h5, s6, h6, h7⟩ := h
  obtain ⟨b1, _, q1, _, t1⟩ := waitWhile_spec H _ _ _ _ _ h1
  obtain ⟨b2, _, q2, _, t2⟩ := waitWhile_spec H _ _ _ _ _ h2
  obtain ⟨b3, _, q3, _, t3⟩ := waitWhile_spec H _ _ _ _ _ h3
  obtain ⟨b4, _, q4, _, t4⟩ := waitWhile_spec H _ _ _ _ _ h4
  obtain ⟨b5, _, q5, _, t5⟩ := waitWhile_spec H _ _ _ _ _ h5
  obtain ⟨b6, _, q6, hq6, t6⟩ := waitWhile_spec H _ _ _ _ _ h6
  simp only [i2c_send_7bit_address, orEq_trace, orEq_buf, store_trace, store_buf,
    load_trace, load_buf, andNotEq_trace, andNotEq_buf, disable_irq_trace, disable_irq_buf,
    enable_irq_trace, enable_irq_buf] at b1 b3 b4 b5 b6 t1 t3 t4 t5 t6
  have ht : sb.trace = _ := congrArg St.trace h7.symm
  have hb : sb.buf = _ := congrArg St.buf h7.symm
  simp only [bufStore_trace, bufStore_buf, enable_irq_trace, enable_irq_buf,
    i2c_receive_data_trace, i2c_receive_data_val, i2c_receive_data_buf,
    t6, t5, t4, t3, t2, t1, List.append_assoc, List.cons_append, List.nil_append] at ht
  simp only [bufStore_trace, bufStore_buf, enable_irq_trace, enable_irq_buf,
    i2c_receive_data_trace, i2c_receive_data_val, i2c_receive_data_buf,
    b6, b5, b4, b3, b2, b1] at hb
  exact ⟨_, _, _, _, _, _, _, _, _, q1, q2, q3, q4, q5, q6, hq6,
    by simpa only [List.append_assoc, List.cons_append, List.nil_append] using ht,
    by simpa only [storeAll] using hb⟩

theorem logged_I2C_Read_two_body (H : Hw σ) (fuel addr : Nat) (s sb : St σ)
    (h : I2C_Read_two_body H fuel addr s = some sb) : Logged H s sb := by
  simp only [I2C_Read_two_body, bind, Option.bind_eq_some, Option.some.injEq] at h
  obtain ⟨s1, h1, s2, h2, s3, h3, s4, h4, s5, h5, s6, h6, h7⟩ := h
  subst h7
  have l1 : Logged H s s1 :=
    ((logged_orEq H Reg.CR2 I2C_IT_ERR s).trans (logged_orEq H Reg.CR1 I2C_CR1_ACK _)).trans
      (logged_waitWhile H _ _ fuel _ _ h1)
  have l2 : Logged H s1 s2 := logged_waitWhile H _ _ fuel _ _ h2
  have l3 : Logged H s2 s3 :=
    ((logged_orEq H Reg.CR1 I2C_CR1_POS s2).trans (logged_orEq H Reg.CR1 I2C_CR1_START _)).trans
      (logged_waitWhile H _ _ fuel _ _ h3)
  have l4 : Logged H s3 s4 :=
    (logged_store H Reg.DR _ s3).trans (logged_waitWhile H _ _ fuel _ _ h4)
  have l5 : Logged H s4 s5 :=
    ((((logged_disable_irq H s4).trans (logged_load H Reg.SR2 _)).trans
      (logged_andNotEq H Reg.CR1 I2C_CR1_ACK _)).trans (logged_enable_irq H _)).trans
      (logged_waitWhile H _ _ fuel _ _ h5)
  have l6 : Logged H s5 s6 :=
    (logged_disable_irq H s5).trans (logged_i2c_stop H fuel _ _ h6)
  have l7 := ((logged_receive H 0 s6).trans (logged_enable_irq H _)).trans
    (logged_receive H 1 _)
  exact (((((l1.trans l2).trans l3).trans l4).trans l5).trans l6).trans l7

theorem dbl_read_two_waits : ReadTwoWaitsExit dbl := by
  refine ⟨dbl_sr1_exits _ (Or.inl (by decide)), dbl_sr2_exits _ (Or.inl (by decide)),
    dbl_sr1_exits _ (Or.inr (by decide)), dbl_sr1_exits _ (Or.inr (by decide)),
    dbl_sr1_exits _ (Or.inl (by decide)), dbl_cr1_exits _ ?_⟩
  intro x
  simp [dbl_stop_reads_clear x]

/-! ## `I2C_Read` with three bytes and with one byte -/

/-- Shape of the whole trace of a returning `I2C_Read` with `nbyte = 3`: the loop
makes two single reads and never enters its three-bytes-left arm. -/
theorem I2C_Read_three_trace (H : Hw σ) (fuel addr : Nat) (s s' : St σ)
    (h : I2C_Read H fuel 3 addr s = some s') :
    ∃ (a b c e f v0 v1 : Nat) (q1 q2 q3 q4 q5 r1 r2 q6 : List Nat),
      s'.trace = s.trace ++
        ([Ev.load Reg.CR2 a, Ev.orEq Reg.CR2 I2C_IT_ERR,
            Ev.load Reg.CR1 b, Ev.orEq Reg.CR1 I2C_CR1_ACK] ++
          pollEv Reg.SR1 q1 ++ pollEv Reg.SR2 q2 ++
          [Ev.load Reg.CR1 c, Ev.orEq Reg.CR1 I2C_CR1_STOP] ++ pollEv Reg.CR1 q3 ++
          pollEv Reg.SR1 q4 ++ [Ev.store Reg.DR ((addr ||| I2C_OAR1_ADD1) % 256)] ++
          pollEv Reg.SR1 q5 ++ [Ev.load Reg.SR2 e] ++
          pollEv Reg.SR1 r1 ++ [Ev.load Reg.DR v0, Ev.bufStore 0 (v0 % 256)] ++
          pollEv Reg.SR1 r2 ++ [Ev.load Reg.DR v1, Ev.bufStore 1 (v1 % 256)] ++
          pollEv Reg.CR1 q6 ++ [Ev.load Reg.CR1 f, Ev.orEq Reg.CR1 I2C_CR1_ACK]) ∧
      s'.buf = storeAll s.buf 0 [v0 % 256, v1 % 256] := by
  have e0 : ((3 : Nat) == 0) = false := by decide
  have e1 : ((3 : Nat) == 1) = false := by decide
  have e2 : ((3 : Nat) == 2) = false := by decide
  simp only [I2C_Read, e0, e1, e2, if_false, Bool.false_eq_true, I2C_Read_loop_three, bind,
    Option.bind_eq_some, Option.some.injEq] at h
  obtain ⟨s1, h1, s2, h2, s3, h3, s4, h4, s5, h5, s6, ⟨s7, h7, s8, h8, h9⟩, s10, h10, h11⟩ := h
  obtain ⟨b1, _, q1, _, t1⟩ := waitWhile_spec H _ _ _ _ _ h1
  obtain ⟨b2, _, q2, _, t2⟩ := waitWhile_spec H _ _ _ _ _ h2
  obtain ⟨b3, _, q3, _, t3⟩ := waitWhile_spec H _ _ _ _ _ h3
  obtain ⟨b4, _, q4, _, t4⟩ := waitWhile_spec H _ _ _ _ _ h4
  obtain ⟨b5, _, q5, _, t5⟩ := waitWhile_spec H _ _ _ _ _ h5
  obtain ⟨b7, _, r1, _, t7⟩ := waitWhile_spec H _ _ _ _ _ h7
  obtain ⟨b8, _, r2, _, t8⟩ := waitWhile_spec H _ _ _ _ _ h8
  obtain ⟨b10, _, q6, _, t10⟩ := waitWhile_spec H _ _ _ _ _ h10
  simp only [i2c_send_7bit_address, orEq_trace, orEq_buf, store_trace, store_buf,
    load_trace, load_buf, bufStore_trace, bufStore_buf, i2c_receive_data_trace,
    i2c_receive_data_val, i2c_receive_data_buf, Nat.zero_add]
    at b1 b3 b5 b7 b8 t1 t3 t5 t7 t8
  have ht : s'.trace = (orEq H Reg.CR1 I2C_CR1_ACK s10).trace := by rw [h11]
  have hb : s'.buf = (orEq H Reg.CR1 I2C_CR1_ACK s10).buf := by rw [h11]
  have ht6 : s6.trace = _ := congrArg St.trace h9.symm
  have hb6 : s6.buf = _ := congrArg St.buf h9.symm
  simp only [bufStore_trace, bufStore_buf, i2c_receive_data_trace, i2c_receive_data_val,
    i2c_receive_data_buf] at ht6 hb6
  simp only [orEq_trace, t10, ht6, t8, t7, t5, t4, t3, t2, t1, List.append_assoc,
    List.cons_append, List.nil_append] at ht
  simp only [orEq_buf, b10, hb6, b8, b7, b5, b4, b3, b2, b1] at hb
  exact ⟨_, _, _, _, _, _, _, q1, q2, q3, q4, q5, r1, r2, q6,
    by simpa only [List.append_assoc, List.cons_append, List.nil_append] using ht,
    by simpa only [storeAll] using hb⟩

/-- Shape of the whole trace of a returning `I2C_Read` with `nbyte = 1`. -/
theorem I2C_Read_one_trace (H : Hw σ) (fuel addr : Nat) (s s' : St σ)
    (h : I2C_Read H fuel 1 addr s = some s') :
    ∃ (a b c d e f g v x : Nat) (q1 q2 q3 q4 q5 q6 q7 : List Nat),
      completes (fun v => v &&& I2C_SR1_RXNE != 0) q6 = true ∧
      s'.trace = s.trace ++
        ([Ev.load Reg.CR2 a, Ev.orEq Reg.CR2 I2C_IT_ERR,
            Ev.load Reg.CR1 b, Ev.orEq Reg.CR1 I2C_CR1_ACK] ++
          pollEv Reg.SR1 q1 ++ pollEv Reg.SR2 q2 ++
          [Ev.load Reg.CR1 c, Ev.orEq Reg.CR1 I2C_CR1_START] ++
          pollEv Reg.SR1 q3 ++ [Ev.store Reg.DR ((addr ||| I2C_OAR1_ADD1) % 256)] ++
          pollEv Reg.SR1 q4 ++
          [Ev.load Reg.CR1 d, Ev.andNotEq Reg.CR1 I2C_CR1_ACK, Ev.irqOff, Ev.load Reg.SR1 e,
            Ev.load Reg.CR1 f, Ev.orEq Reg.CR1 I2C_CR1_STOP] ++ pollEv Reg.CR1 q5 ++
          [Ev.load Reg.CR1 g, Ev.orEq Reg.CR1 I2C_CR1_STOP, Ev.irqOn] ++
          pollEv Reg.SR1 q6 ++ [Ev.load Reg.DR v, Ev.bufStore 0 (v % 256)] ++
          pollEv Reg.CR1 q7 ++ [Ev.load Reg.CR1 x, Ev.orEq Reg.CR1 I2C_CR1_ACK]) ∧
      s'.buf = storeAll s.buf 0 [v % 256] := by
  have e0 : ((1 : Nat) == 0) = false := by decide
  simp only [I2C_Read, e0, if_false, Bool.false_eq_true, beq_self_eq_true, if_true, bind,
    Option.bind_eq_some, Option.some.injEq] at h
  obtain ⟨s1, h1, s2, h2, s3, h3, s4, h4, s5, h5, s6, h6, s7, h7, h8⟩ := h
  obtain ⟨b1, _, q1, _, t1⟩ := waitWhile_spec H _ _ _ _ _ h1
  obtain ⟨b2, _, q2, _, t2⟩ := waitWhile_spec H _ _ _ _ _ h2
  obtain ⟨b3, _, q3, _, t3⟩ := waitWhile_spec H _ _ _ _ _ h3
  obtain ⟨b4, _, q4, _, t4⟩ := waitWhile_spec H _ _ _ _ _ h4
  obtain ⟨b5, _, q5, _, t5⟩ := waitWhile_spec H _ _ _ _ _ h5
  obtain ⟨b6, _, q6, hq6, t6⟩ := waitWhile_spec H _ _ _ _ _ h6
  obtain ⟨b7, _, q7, _, t7⟩ := waitWhile_spec H _ _ _ _ _ h7
  simp only [i2c_start, i2c_send_7bit_address, orEq_trace, orEq_buf, store_trace, store_buf,
    load_trace, load_buf, andNotEq_trace, andNotEq_buf, disable_irq_trace, disable_irq_buf,
    enable_irq_trace, enable_irq_buf, bufStore_trace, bufStore_buf, i2c_receive_data_trace,
    i2c_receive_data_val, i2c_receive_data_buf] at b1 b3 b4 b5 b6 b7 t1 t3 t4 t5 t6 t7
  have ht : s'.trace = (orEq H Reg.CR1 I2C_CR1_ACK s7).trace := by rw [h8]
  have hb : s'.buf = (orEq H Reg.CR1 I2C_CR1_ACK s7).buf := by rw [h8]
  simp only [orEq_trace, t7, t6, t5, t4, t3, t2, t1, List.append_assoc,
    List.cons_append, List.nil_append] at ht
  simp only [orEq_buf, b7, b6, b5, b4, b3, b2, b1] at hb
  exact ⟨_, _, _, _, _, _, _, _, _, q1, q2, q3, q4, q5, q6, q7, hq6,
    by simpa only [List.append_assoc, List.cons_append, List.nil_append] using ht,
    by simpa only [storeAll] using hb⟩

/-- C2 (code defect shown): every returning run of `I2C_Read` with `nbyte = 3`
reads the data register exactly twice, stores the two bytes to `buf[0]` and
`buf[1]`, and leaves `buf[2]` as it was before the call. -/
theorem I2C_Read_three_reads_two (H : Hw σ) (fuel addr : Nat) (s s' : St σ)
    (h : I2C_Read H fuel 3 addr s = some s') :
    ∃ t v0 v1, s'.trace = s.trace ++ t ∧
      t.filter Ev.isData =
        [Ev.load Reg.DR v0, Ev.bufStore 0 (v0 % 256),
          Ev.load Reg.DR v1, Ev.bufStore 1 (v1 % 256)] ∧
      s'.buf[2]? = s.buf[2]? := by
  obtain ⟨a, b, c, e, f, v0, v1, q1, q2, q3, q4, q5, r1, r2, q6, ht, hb⟩ :=
    I2C_Read_three_trace H fuel addr s s' h
  refine ⟨_, v0, v1, ht, ?_, ?_⟩
  · simp [List.filter_append, List.filter_cons, Ev.isData]
  · rw [hb, storeAll_getElem?]
    simp

theorem I2C_Read_three_reads_two_witness :
    ∃ s', I2C_Read dbl 3 3 0x68 (init [2, 2, 2] false) = some s' ∧
      ∃ t v0 v1, s'.trace = (init [2, 2, 2] false).trace ++ t ∧
        t.filter Ev.isData =
          [Ev.load Reg.DR v0, Ev.bufStore 0 (v0 % 256),
            Ev.load Reg.DR v1, Ev.bufStore 1 (v1 % 256)] ∧
        s'.buf[2]? = (init [2, 2, 2] false).buf[2]? :=
  ⟨(I2C_Read dbl 3 3 0x68 (init [2, 2, 2] false)).get (by decide),
    (Option.some_get _).symm,
    I2C_Read_three_reads_two dbl 3 0x68 (init [2, 2, 2] false) _ (Option.some_get _).symm⟩

/-- C3 (code defect shown): in every returning run of `I2C_Read` with
`nbyte = 3` the register modifications are: error interrupt enabled, ACK set,
STOP set, address byte loaded, ACK set.  The ACK bit is never cleared and no stop
is asserted around the data reads. -/
theorem I2C_Read_three_never_clears_ack (H : Hw σ) (fuel addr : Nat) (s s' : St σ)
    (h : I2C_Read H fuel 3 addr s = some s') :
    ∃ t, s'.trace = s.trace ++ t ∧
      t.filter Ev.isWrite =
        [Ev.orEq Reg.CR2 I2C_IT_ERR, Ev.orEq Reg.CR1 I2C_CR1_ACK,
          Ev.orEq Reg.CR1 I2C_CR1_STOP, Ev.store Reg.DR ((addr ||| I2C_OAR1_ADD1) % 256),
          Ev.orEq Reg.CR1 I2C_CR1_ACK] ∧
      Ev.andNotEq Reg.CR1 I2C_CR1_ACK ∉ t := by
  obtain ⟨a, b, c, e, f, v0, v1, q1, q2, q3, q4, q5, r1, r2, q6, ht, _⟩ :=
    I2C_Read_three_trace H fuel addr s s' h
  refine ⟨_, ht, ?_, ?_⟩
  · simp [List.filter_append, List.filter_cons, Ev.isWrite]
  · simp [pollEv]

theorem I2C_Read_three_never_clears_ack_witness :
    ∃ s', I2C_Read dbl 3 3 0x68 (init [2, 2, 2] false) = some s' ∧
      ∃ t, s'.trace = (init [2, 2, 2] false).trace ++ t ∧
        t.filter Ev.isWrite =
          [Ev.orEq Reg.CR2 I2C_IT_ERR, Ev.orEq Reg.CR1 I2C_CR1_ACK,
            Ev.orEq Reg.CR1 I2C_CR1_STOP, Ev.store Reg.DR ((0x68 ||| I2C_OAR1_ADD1) % 256),
            Ev.orEq Reg.CR1 I2C_CR1_ACK] ∧
        Ev.andNotEq Reg.CR1 I2C_CR1_ACK ∉ t :=
  ⟨(I2C_Read dbl 3 3 0x68 (init [2, 2, 2] false)).get (by decide),
    (Option.some_get _).symm,
    I2C_Read_three_never_clears_ack dbl 3 0x68 (init [2, 2, 2] false) _
      (Option.some_get _).symm⟩

theorem filter_isWrite_singleReadsEv :
    ∀ (l : List (List Nat × Nat)) (i : Nat), (singleReadsEv i l).filter Ev.isWrite = []
  | [], _ => rfl
  | (p, v) :: rest, i => by
    simp [singleReadsEv, List.filter_append, List.filter_cons, Ev.isWrite,
      filter_isWrite_singleReadsEv rest]

/-- C7 (code defect shown): in every returning run of `I2C_Read` with
`nbyte >= 3` the register modifications begin: error interrupt enabled, ACK set,
STOP set, address byte loaded into DR; START is set neither before the address
byte nor later. -/
theorem I2C_Read_long_stop_for_start (H : Hw σ) (fuel N addr : Nat) (s s' : St σ)
    (hN : 3 ≤ N) (h : I2C_Read H fuel N addr s = some s') :
    ∃ t rest, s'.trace = s.trace ++ t ∧
      t.filter Ev.isWrite =
        [Ev.orEq Reg.CR2 I2C_IT_ERR, Ev.orEq Reg.CR1 I2C_CR1_ACK,
          Ev.orEq Reg.CR1 I2C_CR1_STOP, Ev.store Reg.DR ((addr ||| I2C_OAR1_ADD1) % 256)]
          ++ rest ∧
      Ev.orEq Reg.CR1 I2C_CR1_START ∉ rest := by
  rcases Nat.lt_or_ge N 4 with h4 | h4
  · obtain rfl : N = 3 := by omega
    obtain ⟨a, b, c, e, f, v0, v1, q1, q2, q3, q4, q5, r1, r2, q6, ht, _⟩ :=
      I2C_Read_three_trace H fuel addr s s' h
    refine ⟨_, [Ev.orEq Reg.CR1 I2C_CR1_ACK], ht, ?_, ?_⟩
    · simp [List.filter_append, List.filter_cons, Ev.isWrite]
    · simp [I2C_CR1_ACK, I2C_CR1_START]
  · obtain ⟨k, rfl⟩ : ∃ k, N = k + 4 := ⟨N - 4, by omega⟩
    obtain ⟨a, b, c, e, f, q1, q2, q3, q4, q5, q6, singles, p1, p2, p3, c1, v1, c2, v2, v3,
      _, _, _, _, _, ht, _⟩ := I2C_Read_long_trace H fuel k addr s s' h
    refine ⟨_, [Ev.andNotEq Reg.CR1 I2C_CR1_ACK, Ev.orEq Reg.CR1 I2C_CR1_STOP,
      Ev.orEq Reg.CR1 I2C_CR1_ACK], ht, ?_, ?_⟩
    · simp [List.filter_append, List.filter_cons, Ev.isWrite, lastThreeEv,
        filter_isWrite_singleReadsEv]
    · simp [I2C_CR1_ACK, I2C_CR1_START, I2C_CR1_STOP]

theorem I2C_Read_long_stop_for_start_witness :
    3 ≤ 3 ∧ ∃ s', I2C_Read dbl 3 3 0x68 (init [2, 2, 2] false) = some s' ∧
      ∃ t rest, s'.trace = (init [2, 2, 2] false).trace ++ t ∧
        t.filter Ev.isWrite =
          [Ev.orEq Reg.CR2 I2C_IT_ERR, Ev.orEq Reg.CR1 I2C_CR1_ACK,
            Ev.orEq Reg.CR1 I2C_CR1_STOP, Ev.store Reg.DR ((0x68 ||| I2C_OAR1_ADD1) % 256)]
            ++ rest ∧
        Ev.orEq Reg.CR1 I2C_CR1_START ∉ rest :=
  ⟨by decide, (I2C_Read dbl 3 3 0x68 (init [2, 2, 2] false)).get (by decide),
    (Option.some_get _).symm,
    I2C_Read_long_stop_for_start dbl 3 3 0x68 (init [2, 2, 2] false) _ (by decide)
      (Option.some_get _).symm⟩

/-- C8 (code defect shown): in every returning run of `I2C_Write` (`nbyte >= 1`)
the read of SR1 that immediately precedes the load of the address byte saw the
SB flag clear, and nothing but the setting of START was written before it; in
every returning one-byte `I2C_Read` the read of SR1 that immediately precedes
the one read of DR saw the RXNE flag clear.  Both waits exit on an observation of
their flag being clear. -/
theorem waits_exit_on_flag_clear (H : Hw σ) (fuel N addr : Nat) (s1 s1' s2 s2' : St σ)
    (hw : I2C_Write H fuel (N + 1) addr s1 = some s1')
    (hr : I2C_Read H fuel 1 addr s2 = some s2') :
    (∃ t1 v t2, s1'.trace = s1.trace ++
        (t1 ++ [Ev.load Reg.SR1 v,
          Ev.store Reg.DR ((addr &&& bnot32 I2C_OAR1_ADD1) % 256)] ++ t2) ∧
      v &&& I2C_SR1_SB = 0 ∧ t1.filter Ev.isWrite = [Ev.orEq Reg.CR1 I2C_CR1_START]) ∧
    (∃ t1 v w t2, s2'.trace = s2.trace ++
        (t1 ++ [Ev.load Reg.SR1 v, Ev.load Reg.DR w] ++ t2) ∧
      v &&& I2C_SR1_RXNE = 0 ∧ ∀ w', Ev.load Reg.DR w' ∉ t1) := by
  constructor
  · obtain ⟨c1, c2, sr2, p1, p2, p3, p4, p5, ps, _, hp1, _, ht⟩ :=
      I2C_Write_trace H fuel N addr s1 s1' hw
    obtain ⟨ws, v, hws, hv, _⟩ := completes_getLast hp1
    refine ⟨[Ev.load Reg.CR1 c1, Ev.orEq Reg.CR1 I2C_CR1_START] ++ pollEv Reg.SR1 ws, v,
      pollEv Reg.SR1 p2 ++
        [Ev.load Reg.SR2 sr2, Ev.bufLoad 0 (s1.buf.getD 0 0),
          Ev.store Reg.DR (s1.buf.getD 0 0)] ++
        writeLoopEv s1.buf 1 ps ++ pollEv Reg.SR1 p3 ++
        [Ev.load Reg.CR1 c2, Ev.orEq Reg.CR1 I2C_CR1_STOP] ++
        pollEv Reg.CR1 p4 ++ pollEv Reg.CR1 p5, ?_, ?_, ?_⟩
    · rw [ht, hws]
      simp only [pollEv, List.map_append, List.map_cons, List.map_nil, List.append_assoc,
        List.cons_append, List.nil_append]
    · simpa using hv
    · simp [List.filter_append, List.filter_cons, Ev.isWrite]
  · obtain ⟨a, b, c, d, e, f, g, v, x, q1, q2, q3, q4, q5, q6, q7, hq6, ht, _⟩ :=
      I2C_Read_one_trace H fuel addr s2 s2' hr
    obtain ⟨ws, u, hws, hu, _⟩ := completes_getLast hq6
    refine ⟨[Ev.load Reg.CR2 a, Ev.orEq Reg.CR2 I2C_IT_ERR,
        Ev.load Reg.CR1 b, Ev.orEq Reg.CR1 I2C_CR1_ACK] ++
        pollEv Reg.SR1 q1 ++ pollEv Reg.SR2 q2 ++
        [Ev.load Reg.CR1 c, Ev.orEq Reg.CR1 I2C_CR1_START] ++
        pollEv Reg.SR1 q3 ++ [Ev.store Reg.DR ((addr ||| I2C_OAR1_ADD1) % 256)] ++
        pollEv Reg.SR1 q4 ++
        [Ev.load Reg.CR1 d, Ev.andNotEq Reg.CR1 I2C_CR1_ACK, Ev.irqOff, Ev.load Reg.SR1 e,
          Ev.load Reg.CR1 f, Ev.orEq Reg.CR1 I2C_CR1_STOP] ++ pollEv Reg.CR1 q5 ++
        [Ev.load Reg.CR1 g, Ev.orEq Reg.CR1 I2C_CR1_STOP, Ev.irqOn] ++ pollEv Reg.SR1 ws,
      u, v,
      [Ev.bufStore 0 (v % 256)] ++ pollEv Reg.CR1 q7 ++
        [Ev.load Reg.CR1 x, Ev.orEq Reg.CR1 I2C_CR1_ACK], ?_, ?_, ?_⟩
    · rw [ht, hws]
      simp only [pollEv, List.map_append, List.map_cons, List.map_nil, List.append_assoc,
        List.cons_append, List.nil_append]
    · simpa using hu
    · intro w'
      simp [pollEv]

theorem waits_exit_on_flag_clear_witness :
    ∃ s1' s2', I2C_Write dbl 3 (0 + 1) 0x68 (init [0x3B] false) = some s1' ∧
      I2C_Read dbl 3 1 0x68 (init [2] false) = some s2' ∧
      (∃ t1 v t2, s1'.trace = (init [0x3B] false).trace ++
          (t1 ++ [Ev.load Reg.SR1 v,
            Ev.store Reg.DR ((0x68 &&& bnot32 I2C_OAR1_ADD1) % 256)] ++ t2) ∧
        v &&& I2C_SR1_SB = 0 ∧ t1.filter Ev.isWrite = [Ev.orEq Reg.CR1 I2C_CR1_START]) ∧
      (∃ t1 v w t2, s2'.trace = (init [2] false).trace ++
          (t1 ++ [Ev.load Reg.SR1 v, Ev.load Reg.DR w] ++ t2) ∧
        v &&& I2C_SR1_RXNE = 0 ∧ ∀ w', Ev.load Reg.DR w' ∉ t1) :=
  ⟨(I2C_Write dbl 3 (0 + 1) 0x68 (init [0x3B] false)).get (by decide),
    (I2C_Read dbl 3 1 0x68 (init [2] false)).get (by decide),
    (Option.some_get _).symm, (Option.some_get _).symm,
    waits_exit_on_flag_clear dbl 3 0 0x68 (init [0x3B] false) _ (init [2] false) _
      (Option.some_get _).symm (Option.some_get _).symm⟩

/-- C6 (code defect shown): called with `SlaveAddress = 0x68` as `main.c` does,
`I2C_Write` loads the address byte 0x68 and `I2C_Read` loads 0x6A.  Bit 0 of the
byte loaded by `I2C_Read` is 0, not 1, and the two bytes differ in bit 1. -/
theorem address_byte_at_0x68 :
    (I2C_Write dbl 3 1 0x68 (init [0x3B] false)).map (fun s => s.trace.filter Ev.isWrite)
      = some [Ev.orEq Reg.CR1 I2C_CR1_START, Ev.store Reg.DR 0x68, Ev.store Reg.DR 0x3B,
          Ev.orEq Reg.CR1 I2C_CR1_STOP] ∧
    (I2C_Read dbl 3 1 0x68 (init [2] false)).map (fun s => s.trace.filter Ev.isWrite)
      = some [Ev.orEq Reg.CR2 I2C_IT_ERR, Ev.orEq Reg.CR1 I2C_CR1_ACK,
          Ev.orEq Reg.CR1 I2C_CR1_START, Ev.store Reg.DR 0x6A,
          Ev.andNotEq Reg.CR1 I2C_CR1_ACK, Ev.orEq Reg.CR1 I2C_CR1_STOP,
          Ev.orEq Reg.CR1 I2C_CR1_STOP, Ev.orEq Reg.CR1 I2C_CR1_ACK] ∧
    Nat.testBit 0x6A 0 = false ∧ 0x68 ^^^ 0x6A = 2 := by
  refine ⟨by decide, by decide, by decide, by decide⟩

/-! ## The two-byte read on hardware that keeps POS -/

theorem or_keeps_pos (v m : Nat) (h : v &&& I2C_CR1_POS = I2C_CR1_POS) :
    (v ||| m) &&& I2C_CR1_POS = I2C_CR1_POS := by
  apply Nat.eq_of_testBit_eq
  intro i
  have hi := congrArg (fun x => Nat.testBit x i) h
  simp only [Nat.testBit_and, Nat.testBit_or] at hi ⊢
  cases hv : v.testBit i <;> cases hm : m.testBit i <;>
    cases hp : I2C_CR1_POS.testBit i <;> simp_all

theorem or_pos_sets_pos (v : Nat) : (v ||| I2C_CR1_POS) &&& I2C_CR1_POS = I2C_CR1_POS := by
  apply Nat.eq_of_testBit_eq
  intro i
  simp only [Nat.testBit_and, Nat.testBit_or]
  cases v.testBit i <;> cases I2C_CR1_POS.testBit i <;> rfl

theorem and_const_keeps_pos (v k : Nat) (hk : k &&& I2C_CR1_POS = I2C_CR1_POS)
    (h : v &&& I2C_CR1_POS = I2C_CR1_POS) : (v &&& k) &&& I2C_CR1_POS = I2C_CR1_POS := by
  rw [Nat.land_assoc, hk, h]

theorem pos_set_not_stop_only (v : Nat) (h : v &&& I2C_CR1_POS = I2C_CR1_POS) :
    (v &&& bnot32 I2C_CR1_STOP != 0) = true := by
  have h1 := and_const_keeps_pos v (bnot32 I2C_CR1_STOP) (by decide) h
  simp only [bne_iff_ne, ne_eq]
  intro h0
  rw [h0] at h1
  exact absurd h1 (by decide)

theorem waitWhile_keeps (H : Hw σ) (Inv : σ → Prop) (hk : KeepsPOS H Inv) (r : Reg)
    (cont : Nat → Bool) :
    ∀ (fuel : Nat) (s s' : St σ), Inv s.dev → waitWhile H r cont fuel s = some s' → Inv s'.dev
  | 0, s, s', _, h => by simp [waitWhile] at h
  | fuel + 1, s, s', hi, h => by
    simp only [waitWhile] at h
    have hi' : Inv (load H r s).2.dev := hk.rd_keeps s.dev r hi
    by_cases hc : cont (load H r s).1 = true
    · rw [if_pos hc] at h
      exact waitWhile_keeps H Inv hk r cont fuel _ _ hi' h
    · rw [if_neg hc] at h
      cases h
      exact hi'

theorem orEq_keeps (H : Hw σ) (Inv : σ → Prop) (hk : KeepsPOS H Inv) (m : Nat) (s : St σ)
    (hi : Inv s.dev) : Inv (orEq H Reg.CR1 m s).dev :=
  hk.wr_cr1 _ _ (or_keeps_pos _ m (hk.rd_sees s.dev hi))

theorem andNotEq_ack_keeps (H : Hw σ) (Inv : σ → Prop) (hk : KeepsPOS H Inv) (s : St σ)
    (hi : Inv s.dev) : Inv (andNotEq H Reg.CR1 I2C_CR1_ACK s).dev :=
  hk.wr_cr1 _ _ (and_const_keeps_pos _ _ (by decide) (hk.rd_sees s.dev hi))

/-- On hardware that keeps POS set, the wait `while (CR1 & ~STOP);` never exits. -/
theorem wait_not_stop_only_spins (H : Hw σ) (Inv : σ → Prop) (hk : KeepsPOS H Inv) :
    ∀ (fuel : Nat) (s : St σ), Inv s.dev →
      waitWhile H Reg.CR1 (fun v => v &&& bnot32 I2C_CR1_STOP != 0) fuel s = none
  | 0, _, _ => rfl
  | fuel + 1, s, hi => by
    simp only [waitWhile]
    have hc : ((load H Reg.CR1 s).1 &&& bnot32 I2C_CR1_STOP != 0) = true :=
      pos_set_not_stop_only _ (hk.rd_sees s.dev hi)
    rw [if_pos hc]
    exact wait_not_stop_only_spins H Inv hk fuel _ (hk.rd_keeps s.dev Reg.CR1 hi)

/-- C5 (code defect shown): on hardware that keeps the POS bit of CR1 as
software last wrote it, `I2C_Read` with `nbyte = 2` returns for no amount of
fuel: its last wait, `while (CR1 & ~STOP);`, cannot exit while POS is set. -/
theorem I2C_Read_two_never_returns (H : Hw σ) (Inv : σ → Prop) (hk : KeepsPOS H Inv)
    (fuel addr : Nat) (s : St σ) : I2C_Read H fuel 2 addr s = none := by
  cases hr : I2C_Read H fuel 2 addr s with
  | none => rfl
  | some s' =>
    exfalso
    have e0 : ((2 : Nat) == 0) = false := by decide
    have e1 : ((2 : Nat) == 1) = false := by decide
    simp only [I2C_Read, e0, e1, if_false, Bool.false_eq_true, beq_self_eq_true, if_true,
      bind, Option.bind_eq_some, Option.some.injEq] at hr
    obtain ⟨s1, _, s2, _, s3, h3, s4, h4, s5, h5, s6, h6, s7, h7, _⟩ := hr
    have i2 : Inv (orEq H Reg.CR1 I2C_CR1_START (orEq H Reg.CR1 I2C_CR1_POS s2)).dev :=
      orEq_keeps H Inv hk _ _ (hk.wr_cr1 _ _ (or_pos_sets_pos _))
    have i3 : Inv s3.dev := waitWhile_keeps H Inv hk _ _ _ _ _ i2 h3
    have i4 : Inv s4.dev := waitWhile_keeps H Inv hk _ _ _ _ _ (hk.wr_dr _ _ i3) h4
    have i4' : Inv (enable_irq
        (andNotEq H Reg.CR1 I2C_CR1_ACK (load H Reg.SR2 (disable_irq s4)).2)).dev :=
      andNotEq_ack_keeps H Inv hk _ (hk.rd_keeps _ Reg.SR2 i4)
    have i5 : Inv s5.dev := waitWhile_keeps H Inv hk _ _ _ _ _ i4' h5
    have i6 : Inv s6.dev :=
      waitWhile_keeps H Inv hk _ _ _ _ _ (orEq_keeps H Inv hk _ (disable_irq s5) i5) h6
    have i7 : Inv (bufStore 1
        (i2c_receive_data H (enable_irq
          (bufStore 0 (i2c_receive_data H s6).1 (i2c_receive_data H s6).2))).1
        (i2c_receive_data H (enable_irq
          (bufStore 0 (i2c_receive_data H s6).1 (i2c_receive_data H s6).2))).2).dev :=
      hk.rd_keeps _ Reg.DR (hk.rd_keeps _ Reg.DR i6)
    rw [wait_not_stop_only_spins H Inv hk fuel _ i7] at h7
    cases h7

theorem dbl_keeps_pos : KeepsPOS dbl (fun d => d.cr1 &&& I2C_CR1_POS = I2C_CR1_POS) where
  rd_keeps d r h := by
    cases r
    · exact and_const_keeps_pos _ _ (by decide) h
    all_goals exact h
  rd_sees d h := by
    show d.cr1 % 4294967296 &&& I2C_CR1_POS = I2C_CR1_POS
    have e := Nat.and_pow_two_sub_one_eq_mod d.cr1 32
    norm_num at e
    rw [← e]
    exact and_const_keeps_pos _ _ (by decide) h
  wr_cr1 d v h := h
  wr_dr d v h := h

theorem I2C_Read_two_never_returns_witness :
    (KeepsPOS dbl (fun d => d.cr1 &&& I2C_CR1_POS = I2C_CR1_POS) ∧ ReadWaitsExit dbl) ∧
      I2C_Read dbl 1000 2 0x68 (init [2, 2] false) = none :=
  ⟨⟨dbl_keeps_pos, dbl_read_waits⟩,
    I2C_Read_two_never_returns dbl _ dbl_keeps_pos 1000 0x68 (init [2, 2] false)⟩

/-- C4 (amended): for a read with `nbyte = 2`, on hardware on which the waits
before the last wait of the branch exit, `I2C_Read` reaches that last wait, and
the accesses it has made by then that set or clear POS, set STOP, write or read
DR or store to the buffer are, in order: POS set, address byte loaded into DR,
STOP set, DR read into `buf[0]`, DR read into `buf[1]`.  The stop assertion
precedes both data-register reads.  The accesses are what the run did to the
hardware (the device, buffer and interrupt mask at the last wait are those
reached by performing them in order), and what follows in the branch is the last
wait, the clearing of POS and the setting of ACK. -/
theorem I2C_Read_two_order (H : Hw σ) (addr : Nat) (s : St σ) (hx : ReadTwoWaitsExit H) :
    (∀ fuel, I2C_Read H fuel 2 addr s =
      (I2C_Read_two_body H fuel addr s).bind (fun sb =>
        (waitWhile H Reg.CR1 (fun v => v &&& bnot32 I2C_CR1_STOP != 0) fuel sb).bind
          (fun s1 => some (orEq H Reg.CR1 I2C_CR1_ACK
            (andNotEq H Reg.CR1 I2C_CR1_POS s1))))) ∧
    (∃ fuel sb, I2C_Read_two_body H fuel addr s = some sb) ∧
    ∀ fuel sb, I2C_Read_two_body H fuel addr s = some sb →
      ∃ t v0 v1, sb.trace = s.trace ++ t ∧
        (∀ l, ∃ l', replay H t (s.mach l) = some (sb.mach l')) ∧
        t.filter Ev.isPosStopData =
          [Ev.orEq Reg.CR1 I2C_CR1_POS, Ev.store Reg.DR ((addr ||| I2C_OAR1_ADD1) % 256),
            Ev.orEq Reg.CR1 I2C_CR1_STOP,
            Ev.load Reg.DR v0, Ev.bufStore 0 (v0 % 256),
            Ev.load Reg.DR v1, Ev.bufStore 1 (v1 % 256)] ∧
        sb.buf = storeAll s.buf 0 [v0 % 256, v1 % 256] := by
  refine ⟨fun fuel => I2C_Read_two_eq H fuel addr s, (I2C_Read_two_body_good H hx addr).2 s, ?_⟩
  intro fuel sb h
  obtain ⟨a, b, c, d, e, f, g, v0, v1, q1, q2, q3, q4, q5, q6, _, ht, hb⟩ :=
    I2C_Read_two_body_trace H fuel addr s sb h
  refine ⟨_, v0, v1, ht, (logged_I2C_Read_two_body H fuel addr s sb h).replay_of_trace ht,
    ?_, hb⟩
  simp [List.filter_append, List.filter_cons, Ev.isPosStopData, I2C_CR1_POS, I2C_CR1_STOP,
    I2C_CR1_ACK, I2C_CR1_START]

theorem I2C_Read_two_order_witness :
    ReadTwoWaitsExit dbl ∧
    ((∀ fuel, I2C_Read dbl fuel 2 0x68 (init [2, 2] false) =
      (I2C_Read_two_body dbl fuel 0x68 (init [2, 2] false)).bind (fun sb =>
        (waitWhile dbl Reg.CR1 (fun v => v &&& bnot32 I2C_CR1_STOP != 0) fuel sb).bind
          (fun s1 => some (orEq dbl Reg.CR1 I2C_CR1_ACK
            (andNotEq dbl Reg.CR1 I2C_CR1_POS s1))))) ∧
    (∃ fuel sb, I2C_Read_two_body dbl fuel 0x68 (init [2, 2] false) = some sb) ∧
    ∀ fuel sb, I2C_Read_two_body dbl fuel 0x68 (init [2, 2] false) = some sb →
      ∃ t v0 v1, sb.trace = (init [2, 2] false).trace ++ t ∧
        (∀ l, ∃ l', replay dbl t ((init [2, 2] false).mach l) = some (sb.mach l')) ∧
        t.filter Ev.isPosStopData =
          [Ev.orEq Reg.CR1 I2C_CR1_POS, Ev.store Reg.DR ((0x68 ||| I2C_OAR1_ADD1) % 256),
            Ev.orEq Reg.CR1 I2C_CR1_STOP,
            Ev.load Reg.DR v0, Ev.bufStore 0 (v0 % 256),
            Ev.load Reg.DR v1, Ev.bufStore 1 (v1 % 256)] ∧
        sb.buf = storeAll (init [2, 2] false).buf 0 [v0 % 256, v1 % 256]) :=
  ⟨dbl_read_two_waits, I2C_Read_two_order dbl 0x68 (init [2, 2] false) dbl_read_two_waits⟩

/-- C4 (counterexample): on the double `dbl` (CR1 as left by initialisation, PE
and ACK set, and kept as written), the two-byte read at address 0x68 reaches its
last wait having set STOP before the first data-register read: the accesses made
are not the beginning of the order "POS set, address, DR read into buf[0], STOP
set, DR read into buf[1], POS cleared".  The call then stays in its last wait for
every amount of fuel, so POS is not cleared either. -/
theorem I2C_Read_two_stop_not_between :
    ∃ sb, I2C_Read_two_body dbl 3 0x68 (init [2, 2] false) = some sb ∧
      sb.trace.filter Ev.isPosStopData =
        [Ev.orEq Reg.CR1 I2C_CR1_POS, Ev.store Reg.DR 0x6A, Ev.orEq Reg.CR1 I2C_CR1_STOP,
          Ev.load Reg.DR 0xA0, Ev.bufStore 0 0xA0, Ev.load Reg.DR 0xA1, Ev.bufStore 1 0xA1] ∧
      (¬ ∃ a v0 v1 w0 w1 rest, sb.trace.filter Ev.isPosStopData ++ rest =
        [Ev.orEq Reg.CR1 I2C_CR1_POS, Ev.store Reg.DR a,
          Ev.load Reg.DR v0, Ev.bufStore 0 w0, Ev.orEq Reg.CR1 I2C_CR1_STOP,
          Ev.load Reg.DR v1, Ev.bufStore 1 w1, Ev.andNotEq Reg.CR1 I2C_CR1_POS]) ∧
      (∀ fuel, waitWhile dbl Reg.CR1 (fun v => v &&& bnot32 I2C_CR1_STOP != 0) fuel sb
        = none) ∧
      ∀ fuel, I2C_Read dbl fuel 2 0x68 (init [2, 2] false) = none := by
  have e : (I2C_Read_two_body dbl 3 0x68 (init [2, 2] false)).map
      (fun sb => (sb.trace.filter Ev.isPosStopData, sb.dev.cr1)) =
        some ([Ev.orEq Reg.CR1 I2C_CR1_POS, Ev.store Reg.DR 0x6A,
          Ev.orEq Reg.CR1 I2C_CR1_STOP,
          Ev.load Reg.DR 0xA0, Ev.bufStore 0 0xA0, Ev.load Reg.DR 0xA1,
          Ev.bufStore 1 0xA1], I2C_CR1_PE ||| I2C_CR1_POS) := by decide
  obtain ⟨sb, hsb, he⟩ := Option.map_eq_some'.1 e
  obtain ⟨he, hcr⟩ := Prod.mk.inj he
  have hinv : sb.dev.cr1 &&& I2C_CR1_POS = I2C_CR1_POS := by rw [hcr]; decide
  have hspin : ∀ fuel,
      waitWhile dbl Reg.CR1 (fun v => v &&& bnot32 I2C_CR1_STOP != 0) fuel sb = none :=
    fun fuel => wait_not_stop_only_spins dbl _ dbl_keeps_pos fuel sb hinv
  refine ⟨sb, hsb, he, ?_, hspin, ?_⟩
  · rw [he]
    rintro ⟨a, v0, v1, w0, w1, rest, h⟩
    simp at h
  · intro fuel
    rw [I2C_Read_two_eq]
    cases hb' : I2C_Read_two_body dbl fuel 0x68 (init [2, 2] false) with
    | none => rfl
    | some sb' =>
      have hm := (I2C_Read_two_body_good dbl dbl_read_two_waits 0x68).1
      have m1 := hm fuel (max fuel 3) _ _ (le_max_left _ _) hb'
      have m2 := hm 3 (max fuel 3) _ _ (le_max_right _ _) hsb
      obtain rfl : sb' = sb := Option.some.inj (m1.symm.trans m2)
      simp only [Option.some_bind, hspin fuel, Option.none_bind]

/-- On the double `dbl` the one-byte and the three-byte read do return, with CR1
left at PE|ACK: ACK set, POS clear. -/
theorem dbl_other_branches_return :
    (I2C_Read dbl 3 1 0x68 (init [2] false)).map (fun s => s.dev.cr1)
      = some (I2C_CR1_PE ||| I2C_CR1_ACK) ∧
    (I2C_Read dbl 3 3 0x68 (init [2, 2, 2] false)).map (fun s => s.dev.cr1)
      = some (I2C_CR1_PE ||| I2C_CR1_ACK) ∧
    (I2C_Read dbl 3 6 0x68 (init [2, 2, 2, 2, 2, 2] false)).map (fun s => s.dev.cr1)
      = some (I2C_CR1_PE ||| I2C_CR1_ACK) := by
  refine ⟨by decide, by decide, by decide⟩


end DeadReckoning
